import Mathlib

/-!
Verification of the podcast teaser generation pipeline
(`podcast_teaser_generator`), shallowly embedded in Lean 4.

The embedding covers the components the specification's claims are about:

* the content fingerprint (`workflow.py`, `_stable_id_and_dir`):
  `hashlib.sha1(f"{title}|{content}".encode("utf-8")).hexdigest()[:12]`,
  modelled by a full executable SHA-1 over byte lists;
* the provider chains of `content_agent.py` and `video_agent.py`;
* the resumable sequential workflow and the per-stage step functions of
  `workflow.py`, over an explicit file-system model that also records an
  event trace (provider invocations, direct writes, renames, removals);
* the Sora download retry loop and backoff formula of `video_agent.py`;
* the job poll loop of `video_agent.py`;
* the duration reconciliation (ping-pong loop) of `compositor_agent.py`,
  with durations as rationals.

Machine integers do not occur (Python integers are unbounded); 32-bit
arithmetic inside SHA-1 is explicit `% 2^32` on `Nat`.
-/

set_option maxRecDepth 8000

namespace PTG

/-- Byte sequences: each entry is a natural number (a byte is `< 256`). -/
abbrev Bytes := List Nat

/-! ## SHA-1 (`hashlib.sha1`), used by the fingerprint

A direct executable transcription of SHA-1 (FIPS 180). Words are `Nat`
reduced mod `2^32`. The implementation was validated against the standard
test vector: `sha1hexChars` on the bytes of "abc" yields
"a9993e364706816aba3e25717850c26c9cd0d89d". -/

/-- `2^32`, the word modulus of SHA-1. -/
def w32 : Nat := 4294967296

/-- Rotate a 32-bit word (given as a `Nat < 2^32`) left by `n` bits. -/
def rotl (n x : Nat) : Nat := (x * 2 ^ n) % w32 + x / 2 ^ (32 - n)

/-- SHA-1 round constant for round `i`. -/
def sha1K (i : Nat) : Nat :=
  if i < 20 then 0x5A827999 else if i < 40 then 0x6ED9EBA1
  else if i < 60 then 0x8F1BBCDC else 0xCA62C1D6

/-- SHA-1 round function for round `i` (bitwise complement of a 32-bit
word `b` is `2^32 - 1 - b`). -/
def sha1F (i b c d : Nat) : Nat :=
  if i < 20 then (b &&& c) ||| ((w32 - 1 - b) &&& d)
  else if i < 40 then b ^^^ c ^^^ d
  else if i < 60 then (b &&& c) ||| (b &&& d) ||| (c &&& d)
  else b ^^^ c ^^^ d

/-- One step of the message-schedule extension, on the reversed word list
(head = most recent word): `w[t] = rotl1 (w[t-3] xor w[t-8] xor w[t-14] xor w[t-16])`. -/
def extendStep (rws : List Nat) : List Nat :=
  rotl 1 (((rws.getD 2 0) ^^^ (rws.getD 7 0)) ^^^ ((rws.getD 13 0) ^^^ (rws.getD 15 0))) :: rws

/-- Iterate the message-schedule extension. -/
def extendWords : Nat → List Nat → List Nat
  | 0, rws => rws
  | n+1, rws => extendWords n (extendStep rws)

/-- Extend 16 chunk words to the 80 schedule words. -/
def words80 (ws : List Nat) : List Nat := (extendWords 64 ws.reverse).reverse

/-- The five-word SHA-1 state. -/
abbrev H5 := Nat × Nat × Nat × Nat × Nat

/-- One SHA-1 compression round. -/
def roundStep (i : Nat) (wi : Nat) (s : H5) : H5 :=
  ((rotl 5 s.1 + sha1F i s.2.1 s.2.2.1 s.2.2.2.1 + s.2.2.2.2 + sha1K i + wi) % w32,
   s.1, rotl 30 s.2.1, s.2.2.1, s.2.2.2.1)

/-- Run the 80 compression rounds over the schedule words. -/
def rounds : Nat → List Nat → H5 → H5
  | _, [], s => s
  | i, wi :: ws, s => rounds (i+1) ws (roundStep i wi s)

/-- Group bytes into big-endian 32-bit words. -/
def toWords : Bytes → List Nat
  | b0 :: b1 :: b2 :: b3 :: rest => (((b0*256 + b1)*256 + b2)*256 + b3) :: toWords rest
  | _ => []

/-- Process one 64-byte chunk. -/
def processChunk (h : H5) (chunk : Bytes) : H5 :=
  let ws := words80 (toWords chunk)
  let s := rounds 0 ws h
  ((h.1 + s.1) % w32, (h.2.1 + s.2.1) % w32, (h.2.2.1 + s.2.2.1) % w32,
   (h.2.2.2.1 + s.2.2.2.1) % w32, (h.2.2.2.2 + s.2.2.2.2) % w32)

/-- Big-endian encoding of `v` on `n` bytes. -/
def beBytes : Nat → Nat → Bytes
  | 0, _ => []
  | n+1, v => (v / 256 ^ n) % 256 :: beBytes n v

/-- SHA-1 padding: append `0x80`, zero bytes up to 56 mod 64, then the
bit length on 8 big-endian bytes. -/
def padMsg (m : Bytes) : Bytes :=
  m ++ 128 :: List.replicate ((119 - m.length % 64) % 64) 0 ++ beBytes 8 (8 * m.length)

/-- Split into 64-byte chunks (fuel-driven so that it computes by `rfl`). -/
def chunksAux : Nat → Bytes → List Bytes
  | 0, _ => []
  | fuel+1, l => if l.isEmpty then [] else l.take 64 :: chunksAux fuel (l.drop 64)

/-- The SHA-1 digest of a byte sequence, as five 32-bit words. -/
def sha1Digest (m : Bytes) : H5 :=
  (chunksAux (padMsg m).length (padMsg m)).foldl processChunk
    (0x67452301, 0xEFCDAB89, 0x98BADCFE, 0x10325476, 0xC3D2E1F0)

/-- Lower-case hex digit. -/
def hexChar (n : Nat) : Char := if n < 10 then Char.ofNat (48 + n) else Char.ofNat (87 + n)

/-- Eight hex characters of a 32-bit word, most significant nibble first. -/
def toHex8 (x : Nat) : List Char :=
  [hexChar (x / 16^7 % 16), hexChar (x / 16^6 % 16), hexChar (x / 16^5 % 16),
   hexChar (x / 16^4 % 16), hexChar (x / 16^3 % 16), hexChar (x / 16^2 % 16),
   hexChar (x / 16 % 16), hexChar (x % 16)]

/-- The 40-character hex digest of SHA-1 (`hexdigest()` in Python). -/
def sha1hexChars (m : Bytes) : List Char :=
  let h := sha1Digest m
  toHex8 h.1 ++ toHex8 h.2.1 ++ toHex8 h.2.2.1 ++ toHex8 h.2.2.2.1 ++ toHex8 h.2.2.2.2

/-- UTF-8 encoding of one character (`str.encode("utf-8")`, per character). -/
def utf8EncodeCharNat (c : Char) : Bytes :=
  let n := c.toNat
  if n < 128 then [n]
  else if n < 2048 then [192 + n / 64, 128 + n % 64]
  else if n < 65536 then [224 + n / 4096, 128 + (n / 64) % 64, 128 + n % 64]
  else [240 + n / 262144, 128 + (n / 4096) % 64, 128 + (n / 64) % 64, 128 + n % 64]

/-- UTF-8 bytes of a string (`s.encode("utf-8")`). -/
def utf8Bytes (s : String) : Bytes := (s.data.map utf8EncodeCharNat).flatten

/-- The content fingerprint of `workflow.py`
(`TeaserGenerationWorkflow._stable_id_and_dir` and the inline copy in
`generate_teaser_sequential_resumable`):
`hashlib.sha1(f"{title}|{content}".encode("utf-8")).hexdigest()[:12]`. -/
def fingerprint (title content : String) : String :=
  String.mk ((sha1hexChars (utf8Bytes (title ++ "|" ++ content))).take 12)

/-! ### Fingerprint facts (claim C2) -/

theorem length_toHex8 (x : Nat) : (toHex8 x).length = 8 := by
  simp [toHex8]

theorem length_sha1hexChars (m : Bytes) : (sha1hexChars m).length = 40 := by
  simp [sha1hexChars, length_toHex8]

/-- C2 (counterexample): the fingerprint joins title and source text with a
bare `"|"` separator, so the two distinct input pairs `("a|b", "c")` and
`("a", "b|c")` serialize to the same string `"a|b|c"` and collide with
certainty, refuting "different (title, sourceText) pairs yield different
ids (with overwhelming probability)". -/
theorem fingerprint_delimiter_collision :
    (("a|b", "c") : String × String) ≠ ("a", "b|c") ∧
      fingerprint "a|b" "c" = fingerprint "a" "b|c" := by
  constructor
  · decide
  · rfl

/-- C2 (amended): the fingerprint is a pure deterministic function of
(title, sourceText) and always yields a 12-hex-character id, but it
factors through the string `title ++ "|" ++ sourceText`, so any two
pairs with the same joined string (distinct pairs included, as in the
counterexample) receive the same id with certainty; distinctness of ids
can only be hoped for when the joined strings differ. -/
theorem fingerprint_deterministic_and_12_hex :
    (∀ t s : String, fingerprint t s = fingerprint t s) ∧
      (∀ t s : String, (fingerprint t s).length = 12) ∧
      (∀ t₁ s₁ t₂ s₂ : String,
        t₁ ++ "|" ++ s₁ = t₂ ++ "|" ++ s₂ → fingerprint t₁ s₁ = fingerprint t₂ s₂) := by
  refine ⟨fun t s => rfl, fun t s => ?_, fun t₁ s₁ t₂ s₂ h => ?_⟩
  · show (String.mk _).length = 12
    simp [String.length, List.length_take, length_sha1hexChars]
  · unfold fingerprint
    rw [h]

/-- C2 (witness): the determinism and the serialization-congruence parts
of `fingerprint_deterministic_and_12_hex` at concrete inputs. -/
theorem fingerprint_deterministic_witness :
    fingerprint "Ep1" "text" = fingerprint "Ep1" "text" ∧
      fingerprint "p|q" "r" = fingerprint "p" "q|r" :=
  ⟨fingerprint_deterministic_and_12_hex.1 "Ep1" "text",
   fingerprint_deterministic_and_12_hex.2.2 "p|q" "r" "p" "q|r" (by decide)⟩

/-! ## Data model

`models.py` is not under `src/`; the two records below carry exactly the
fields that the code under `src/` reads and writes
(`workflow.py` line 339 lists the `TeaserContent` fields explicitly:
headline, script, key_points, visual_description, duration_seconds).
`duration_seconds` is a Python `int`, hence `Int`. -/

/-- A podcast script: episode title plus raw script text. -/
structure PodcastScript where
  title : String
  content : String
  deriving DecidableEq, Repr

/-- Extracted teaser content (the `content` stage artifact). -/
structure TeaserContent where
  headline : String
  script : String
  key_points : List String
  visual_description : String
  duration_seconds : Int
  deriving DecidableEq, Repr

/-! ## Serialization of `TeaserContent`

The source persists `TeaserContent` with pydantic's `model_dump_json` and
reads it back with `json.loads` + the model constructor. Those are library
routines, not repository code; what the workflow relies on is only that
the rendering is a deterministic injective byte encoding whose parse is a
left inverse. They are modelled by an explicit executable codec with a
proved `parseTeaser (serializeTeaser c) = some c` roundtrip (naturals are
length-coded in unary so the decoders are plainly structural). -/

/-- Unary code for a natural: `n` ones then a zero. -/
def encNat (n : Nat) : Bytes := List.replicate n 1 ++ [0]

/-- Decode a unary-coded natural, returning the remainder. -/
def decNat : Bytes → Option (Nat × Bytes)
  | [] => none
  | 0 :: r => some (0, r)
  | 1 :: r =>
    match decNat r with
    | some (n, r') => some (n+1, r')
    | none => none
  | _ :: _ => none

/-- Read exactly `n` bytes, returning them and the remainder. -/
def readN : Nat → Bytes → Option (List Nat × Bytes)
  | 0, r => some ([], r)
  | _+1, [] => none
  | n+1, b :: r =>
    match readN n r with
    | some (xs, r') => some (b :: xs, r')
    | none => none

/-- Length-prefixed string code (characters as code points). -/
def encStr (s : String) : Bytes := encNat s.data.length ++ s.data.map Char.toNat

/-- Decode a length-prefixed string. -/
def decStr (b : Bytes) : Option (String × Bytes) :=
  match decNat b with
  | some (n, r) =>
    match readN n r with
    | some (cs, r') => some (String.mk (cs.map Char.ofNat), r')
    | none => none
  | none => none

/-- Length-prefixed list-of-strings code. -/
def encStrList (xs : List String) : Bytes := encNat xs.length ++ (xs.map encStr).flatten

/-- Decode exactly `n` strings. -/
def decStrListAux : Nat → Bytes → Option (List String × Bytes)
  | 0, r => some ([], r)
  | n+1, r =>
    match decStr r with
    | some (s, r') =>
      match decStrListAux n r' with
      | some (xs, r'') => some (s :: xs, r'')
      | none => none
    | none => none

/-- Decode a length-prefixed list of strings. -/
def decStrList (b : Bytes) : Option (List String × Bytes) :=
  match decNat b with
  | some (n, r) => decStrListAux n r
  | none => none

/-- Integer code: a sign byte then a unary natural. -/
def encInt : Int → Bytes
  | .ofNat n => 0 :: encNat n
  | .negSucc n => 2 :: encNat n

/-- Decode an integer. -/
def decInt : Bytes → Option (Int × Bytes)
  | 0 :: r =>
    match decNat r with
    | some (n, r') => some (Int.ofNat n, r')
    | none => none
  | 2 :: r =>
    match decNat r with
    | some (n, r') => some (Int.negSucc n, r')
    | none => none
  | _ => none

/-- Serialized bytes of a `TeaserContent` (stands for `model_dump_json`). -/
def serializeTeaser (c : TeaserContent) : Bytes :=
  encStr c.headline ++ encStr c.script ++ encStrList c.key_points ++
    encStr c.visual_description ++ encInt c.duration_seconds

/-- Parse a serialized `TeaserContent`
(stands for `TeaserContent(**json.loads(text))`). -/
def parseTeaser (b : Bytes) : Option TeaserContent :=
  match decStr b with
  | some (h, r1) =>
    match decStr r1 with
    | some (sc, r2) =>
      match decStrList r2 with
      | some (kp, r3) =>
        match decStr r3 with
        | some (vd, r4) =>
          match decInt r4 with
          | some (d, r5) => if r5.isEmpty then some ⟨h, sc, kp, vd, d⟩ else none
          | none => none
        | none => none
      | none => none
    | none => none
  | none => none

theorem decNat_encNat (n : Nat) (r : Bytes) : decNat (encNat n ++ r) = some (n, r) := by
  induction n with
  | zero => simp [encNat, decNat]
  | succ n ih =>
    have ih' : decNat (List.replicate n 1 ++ 0 :: r) = some (n, r) := by
      simpa [encNat] using ih
    simp [encNat, List.replicate_succ, decNat, ih']

theorem readN_append (xs r : Bytes) : readN xs.length (xs ++ r) = some (xs, r) := by
  induction xs with
  | nil => simp [readN]
  | cons b xs ih => simp [readN, ih]

theorem map_ofNat_map_toNat (l : List Char) : (l.map Char.toNat).map Char.ofNat = l := by
  induction l with
  | nil => rfl
  | cons c l ih => simp [ih, Char.ofNat_toNat]

theorem decStr_encStr (s : String) (r : Bytes) : decStr (encStr s ++ r) = some (s, r) := by
  have hread : readN s.data.length (s.data.map Char.toNat ++ r)
      = some (s.data.map Char.toNat, r) := by
    have := readN_append (s.data.map Char.toNat) r
    simpa using this
  simp only [decStr, encStr, List.append_assoc, decNat_encNat, hread,
    map_ofNat_map_toNat]

theorem decStrListAux_enc (xs : List String) (r : Bytes) :
    decStrListAux xs.length ((xs.map encStr).flatten ++ r) = some (xs, r) := by
  induction xs with
  | nil => simp [decStrListAux]
  | cons s xs ih => simp [decStrListAux, List.append_assoc, decStr_encStr, ih]

theorem decStrList_enc (xs : List String) (r : Bytes) :
    decStrList (encStrList xs ++ r) = some (xs, r) := by
  simp [decStrList, encStrList, List.append_assoc, decNat_encNat, decStrListAux_enc]

theorem decInt_encInt (i : Int) (r : Bytes) : decInt (encInt i ++ r) = some (i, r) := by
  cases i <;> simp [encInt, decInt, decNat_encNat]

/-- The codec roundtrip: parsing what was serialized restores the content. -/
theorem parseTeaser_serializeTeaser (c : TeaserContent) :
    parseTeaser (serializeTeaser c) = some c := by
  have h5 : decInt (encInt c.duration_seconds) = some (c.duration_seconds, []) := by
    simpa using decInt_encInt c.duration_seconds []
  simp [parseTeaser, serializeTeaser, List.append_assoc, decStr_encStr, decStrList_enc, h5]

/-! ## File-system model

A file system is an association list from path strings to byte contents.
`os.replace` moves a file over any existing destination. The workflow
model additionally records an event trace. -/

/-- A file system: association list path to contents. -/
abbrev FS := List (String × Bytes)

/-- Contents at a path. -/
def getFile : FS → String → Option Bytes
  | [], _ => none
  | (q, b) :: r, p => if q = p then some b else getFile r p

/-- Remove every entry at a path. -/
def removeFile : FS → String → FS
  | [], _ => []
  | (q, b) :: r, p => if q = p then removeFile r p else (q, b) :: removeFile r p

/-- Write contents at a path, replacing any prior entry. -/
def setFile (fs : FS) (p : String) (b : Bytes) : FS := (p, b) :: removeFile fs p

/-- `path.exists()`. -/
def hasFile (fs : FS) (p : String) : Bool := (getFile fs p).isSome

/-- `path.stat().st_size` (0 when the file does not exist — the workflow
only consults sizes after an existence check). -/
def fileSize (fs : FS) (p : String) : Nat :=
  match getFile fs p with
  | some b => b.length
  | none => 0

/-- `os.replace(src, dst)` (our flows only call it on an existing `src`;
on a missing `src` the model is the identity). -/
def osReplace (fs : FS) (src dst : String) : FS :=
  match getFile fs src with
  | some b => setFile (removeFile fs src) dst b
  | none => fs

theorem getFile_removeFile (fs : FS) (p q : String) :
    getFile (removeFile fs p) q = if p = q then none else getFile fs q := by
  induction fs with
  | nil => simp [removeFile, getFile]
  | cons e r ih =>
    obtain ⟨ep, eb⟩ := e
    by_cases h1 : ep = p
    · subst h1
      simp only [removeFile, eq_self_iff_true, if_true]
      rw [ih]
      by_cases h2 : ep = q
      · simp [h2]
      · simp [getFile, h2]
    · simp only [removeFile, if_neg h1, getFile]
      by_cases h2 : ep = q
      · have hpq : ¬ p = q := fun h => h1 (h2.trans h.symm)
        simp [h2, hpq]
      · simp [h2, ih]

theorem getFile_setFile (fs : FS) (p q : String) (b : Bytes) :
    getFile (setFile fs p b) q = if p = q then some b else getFile fs q := by
  by_cases h : p = q <;> simp [setFile, getFile, h, getFile_removeFile]

theorem getFile_setFile_self (fs : FS) (p : String) (b : Bytes) :
    getFile (setFile fs p b) p = some b := by
  simp [getFile_setFile]

theorem getFile_setFile_ne (fs : FS) (p q : String) (b : Bytes) (h : p ≠ q) :
    getFile (setFile fs p b) q = getFile fs q := by
  simp [getFile_setFile, h]

theorem getFile_osReplace_dst (fs : FS) (src dst : String) (b : Bytes)
    (h : getFile fs src = some b) : getFile (osReplace fs src dst) dst = some b := by
  simp [osReplace, h, getFile_setFile_self]

theorem getFile_osReplace_other (fs : FS) (src dst q : String)
    (h1 : q ≠ src) (h2 : q ≠ dst) : getFile (osReplace fs src dst) q = getFile fs q := by
  unfold osReplace
  cases h : getFile fs src with
  | none => rfl
  | some b =>
    rw [getFile_setFile_ne _ _ _ _ (fun hdq => h2 hdq.symm), getFile_removeFile,
      if_neg (fun hsq : src = q => h1 hsq.symm)]

/-- Provider invocations and file operations recorded by the workflow model. -/
inductive Stage
  | content
  | audio
  | video
  | compose
  deriving DecidableEq, Repr

/-- Trace events: a provider invocation, a direct write to a path, an
atomic rename, or a removal. -/
inductive Ev
  | invoke (s : Stage)
  | writeDirect (p : String)
  | rename (src dst : String)
  | remove (p : String)
  deriving DecidableEq, Repr

/-! ## Provider chains (claim C1)

`ContentExtractionAgent.extract_teaser_content` (content_agent.py lines
36-65) tries the MCP provider, then the OpenAI provider, each under a
bare `except` that logs and falls through, and finally returns
`_create_default_content`. `VideoGenerationAgent.generate_video`
(video_agent.py lines 54-91) tries MCP, then Sora, then calls
`_create_placeholder_video` outside any try/except. Provider outcomes are
oracle fields of an environment record; an unavailable provider is
skipped, which the embedding folds into the same fall-through as a raised
error (the control flow is identical). -/

/-- Oracle outcomes for the content-extraction chain. -/
structure ContentChainEnv where
  mcpAvailable : Bool
  mcpResult : Except String TeaserContent
  openaiConfigured : Bool
  openaiResult : Except String TeaserContent

/-- `ContentExtractionAgent._create_default_content` (content_agent.py
lines 147-155), the always-available final fallback. -/
def createDefaultContent (sc : PodcastScript) (maxClipDuration : Int) : TeaserContent :=
  { headline := "Amazing Insights from " ++ sc.title
    script := "Check out this incredible podcast episode with amazing insights!"
    key_points := ["Engaging content", "Expert insights", "Must-listen episode"]
    visual_description := "Dynamic podcast studio visuals with text overlay"
    duration_seconds := maxClipDuration }

/-- `ContentExtractionAgent.extract_teaser_content`: MCP, then OpenAI,
then the default content. -/
def extractTeaserContent (env : ContentChainEnv) (sc : PodcastScript)
    (maxClipDuration : Int) : Except String TeaserContent :=
  match (if env.mcpAvailable then env.mcpResult else .error "mcp unavailable") with
  | .ok c => .ok c
  | .error _ =>
    match (if env.openaiConfigured then env.openaiResult else .error "openai not configured") with
    | .ok c => .ok c
    | .error _ => .ok (createDefaultContent sc maxClipDuration)

/-- Behaviour of the MoviePy backend inside
`VideoGenerationAgent._create_placeholder_video` (video_agent.py lines
326-385): a successful clip render, an `ImportError` (the code then
writes an empty file), or any other error during the render, which the
code re-raises. -/
inductive MoviePyEnv
  | ok (rendered : Bytes)
  | importError
  | writeError (msg : String)
  deriving DecidableEq, Repr

/-- Oracle outcomes for the video-generation chain. -/
structure VideoChainEnv where
  mcpAvailable : Bool
  mcpResult : Except String String
  soraConfigured : Bool
  soraResult : Except String String
  moviepy : MoviePyEnv

/-- `VideoGenerationAgent._create_placeholder_video`: the bytes put at
the output path, or the re-raised MoviePy error. -/
def createPlaceholderVideo (mp : MoviePyEnv) : Except String Bytes :=
  match mp with
  | .ok rendered => .ok rendered
  | .importError => .ok []
  | .writeError msg => .error msg

/-- `VideoGenerationAgent.generate_video`: MCP, then Sora, then the
placeholder; the placeholder call is not guarded, so its error (if any)
propagates to the caller. -/
def generateVideo (env : VideoChainEnv) (videoPath : String) : Except String String :=
  match (if env.mcpAvailable then env.mcpResult else .error "mcp unavailable") with
  | .ok p => .ok p
  | .error _ =>
    match (if env.soraConfigured then env.soraResult else .error "sora not configured") with
    | .ok p => .ok p
    | .error _ =>
      match createPlaceholderVideo env.moviepy with
      | .ok _ => .ok videoPath
      | .error e => .error e

/-! ## Workflow settings, canonical paths, and the oracle environment -/

/-- The settings fields the workflow reads (`config.py` is not under
`src/`, so the values stay abstract; only the path grammar matters). -/
structure Settings where
  outputDir : String
  audioFmt : String
  videoFmt : String

/-- `Path(settings.output_dir) / stable_id`. -/
def projectDir (st : Settings) (pid : String) : String := st.outputDir ++ "/" ++ pid

/-- `project_dir / "teaser_content.json"`. -/
def contentPath (st : Settings) (pid : String) : String :=
  projectDir st pid ++ "/teaser_content.json"

/-- `project_dir / f"audio.{settings.output_audio_format}"`. -/
def audioPathOf (st : Settings) (pid : String) : String :=
  projectDir st pid ++ "/audio." ++ st.audioFmt

/-- `project_dir / f"video.{settings.output_video_format}"`. -/
def videoPathOf (st : Settings) (pid : String) : String :=
  projectDir st pid ++ "/video." ++ st.videoFmt

/-- `project_dir / f"final.{settings.output_video_format}"`. -/
def finalPathOf (st : Settings) (pid : String) : String :=
  projectDir st pid ++ "/final." ++ st.videoFmt

/-- `project_dir / "metadata.json"`. -/
def metadataPath (st : Settings) (pid : String) : String :=
  projectDir st pid ++ "/metadata.json"

/-- Oracle outcomes of the four stage agents for one workflow run: what
each agent returns and where it writes its scratch output file
(`teaser_video_<uuid>` etc. under the output directory) before the
workflow moves it to the canonical path with `os.replace`. The agents'
chains always return (claim C1 covers when they instead raise); this
record describes the successful-return shape the workflow consumes. -/
structure RunEnv where
  teaser : TeaserContent
  genAudioPath : String
  audioBytes : Bytes
  genVideoPath : String
  videoBytes : Bytes
  genFinalPath : String
  finalBytes : Bytes

/-- Serialized `metadata.json` contents (language plus the four force
flags); an injective stand-in for `json.dumps(metadata, indent=2)`. -/
def serializeMeta (language : String) (fC fA fV fF : Bool) : Bytes :=
  encStr language ++ [cond fC 1 0, cond fA 1 0, cond fV 1 0, cond fF 1 0]

/-- Result of a resumable run: `project.generated_assets` paths on
success, or the caught exception message (the source catches every
exception, marks the project failed and returns it). -/
inductive RunResult
  | completed (audioP videoP finalP : String)
  | failed (msg : String)
  deriving DecidableEq, Repr

/-- `RunResult.completed` with any paths. -/
def IsCompleted : RunResult → Prop
  | .completed _ _ _ => True
  | .failed _ => False

instance (r : RunResult) : Decidable (IsCompleted r) := by
  cases r <;> simp [IsCompleted] <;> infer_instance

/-! ## The resumable sequential workflow

`TeaserGenerationWorkflow.generate_teaser_sequential_resumable`
(workflow.py lines 192-298). Each stage checks its canonical artifact
(existence, plus the stage's minimum size) and the force flag, reuses or
regenerates, and the run finally rewrites `metadata.json`. The model
returns the final file system, the event trace, and the result. -/

/-- One media stage of the resumable run: reuse the canonical artifact
when `cond` holds (cached and not forced), otherwise invoke the stage's
provider chain, which writes its scratch file at `gen`, and move it onto
the canonical `tgt` with `os.replace`. -/
def stageReuseOrMove (cond : Prop) [Decidable cond] (gen tgt : String) (b : Bytes)
    (stg : Stage) (s : FS × List Ev) : FS × List Ev :=
  if cond then s
  else
    (osReplace (setFile s.1 gen b) gen tgt,
     s.2 ++ [.invoke stg, .writeDirect gen, .rename gen tgt])

/-- The content step of the resumable run: reuse and re-parse the
persisted JSON (`none` models the raised parse exception), or invoke the
extraction chain and write the JSON directly to the canonical path. -/
def contentStep (env : RunEnv) (cP : String) (fC : Bool) (fs : FS) :
    Option (FS × List Ev) :=
  if hasFile fs cP ∧ ¬ fC then
    match (getFile fs cP).bind parseTeaser with
    | some _ => some (fs, [])
    | none => none
  else
    some (setFile fs cP (serializeTeaser env.teaser),
      [.invoke .content, .writeDirect cP])

/-- Steps 2-4 of the resumable run (audio, video, final composition, in
that order, each with its reuse predicate) followed by the unconditional
direct rewrite of `metadata.json`. -/
def runMedia (st : Settings) (env : RunEnv) (pid language : String)
    (fC fA fV fF : Bool) (s1 : FS × List Ev) : FS × List Ev × RunResult :=
  let aP := audioPathOf st pid
  let vP := videoPathOf st pid
  let fP := finalPathOf st pid
  -- Step 2: audio (reuse requires existence and size > 0).
  let s2 := stageReuseOrMove (hasFile s1.1 aP ∧ 0 < fileSize s1.1 aP ∧ ¬ fA)
    env.genAudioPath aP env.audioBytes .audio s1
  -- Step 3: video (reuse requires existence and size > 1024).
  let s3 := stageReuseOrMove (hasFile s2.1 vP ∧ 1024 < fileSize s2.1 vP ∧ ¬ fV)
    env.genVideoPath vP env.videoBytes .video s2
  -- Step 4: final composition (reuse requires existence and size > 1024).
  let s4 := stageReuseOrMove (hasFile s3.1 fP ∧ 1024 < fileSize s3.1 fP ∧ ¬ fF)
    env.genFinalPath fP env.finalBytes .compose s3
  -- Save metadata (unconditionally rewritten, directly).
  (setFile s4.1 (metadataPath st pid) (serializeMeta language fC fA fV fF),
   s4.2 ++ [.writeDirect (metadataPath st pid)],
   .completed aP vP fP)

def runResumable (st : Settings) (env : RunEnv) (sc : PodcastScript)
    (language : String) (fC fA fV fF : Bool) (fs : FS) : FS × List Ev × RunResult :=
  let pid := fingerprint sc.title sc.content
  -- Step 1: extract teaser content (reuse requires existence only).
  match contentStep env (contentPath st pid) fC fs with
  | none => (fs, [], .failed "content parse error")
  | some s1 => runMedia st env pid language fC fA fV fF s1

/-! ## Per-stage step functions

`step_extract`, `step_tts`, `step_video`, `step_compose` (workflow.py
lines 307-406). They recursively regenerate a missing predecessor before
running their own stage; exceptions (content parse errors) propagate. -/

/-- `TeaserGenerationWorkflow.step_extract`. Returns (project id,
content path). -/
def stepExtract (st : Settings) (env : RunEnv) (sc : PodcastScript)
    (force : Bool) (fs : FS) : FS × List Ev × (String × String) :=
  let pid := fingerprint sc.title sc.content
  let cP := contentPath st pid
  if hasFile fs cP ∧ ¬ force then (fs, [], (pid, cP))
  else
    (setFile fs cP (serializeTeaser env.teaser),
     [.invoke .content, .writeDirect cP], (pid, cP))

/-- The ensure-content preamble shared by `step_tts` and `step_video`:
`if not content_json.exists(): await self.step_extract(script, force=False)`. -/
def ensureContent (st : Settings) (env : RunEnv) (sc : PodcastScript)
    (fs : FS) : FS × List Ev :=
  if hasFile fs (contentPath st (fingerprint sc.title sc.content)) then (fs, [])
  else
    let r := stepExtract st env sc false fs
    (r.1, r.2.1)

/-- `TeaserGenerationWorkflow.step_tts`. Ensures the content artifact,
parses it (a parse failure is a raised exception), then reuses or
regenerates the audio artifact. -/
def stepTTS (st : Settings) (env : RunEnv) (sc : PodcastScript)
    (force : Bool) (fs : FS) : FS × List Ev × Except String (String × String) :=
  let pid := fingerprint sc.title sc.content
  let cP := contentPath st pid
  let aP := audioPathOf st pid
  let e := ensureContent st env sc fs
  if ((getFile e.1 cP).bind parseTeaser).isSome then
    if hasFile e.1 aP ∧ 0 < fileSize e.1 aP ∧ ¬ force then (e.1, e.2, .ok (pid, aP))
    else
      (osReplace (setFile e.1 env.genAudioPath env.audioBytes) env.genAudioPath aP,
       e.2 ++ [.invoke .audio, .writeDirect env.genAudioPath,
         .rename env.genAudioPath aP],
       .ok (pid, aP))
  else (e.1, e.2, .error "content parse error")

/-- `TeaserGenerationWorkflow.step_video`. Same shape as `step_tts` with
the video artifact's `> 1024` size predicate. -/
def stepVideo (st : Settings) (env : RunEnv) (sc : PodcastScript)
    (force : Bool) (fs : FS) : FS × List Ev × Except String (String × String) :=
  let pid := fingerprint sc.title sc.content
  let cP := contentPath st pid
  let vP := videoPathOf st pid
  let e := ensureContent st env sc fs
  if ((getFile e.1 cP).bind parseTeaser).isSome then
    if hasFile e.1 vP ∧ 1024 < fileSize e.1 vP ∧ ¬ force then (e.1, e.2, .ok (pid, vP))
    else
      (osReplace (setFile e.1 env.genVideoPath env.videoBytes) env.genVideoPath vP,
       e.2 ++ [.invoke .video, .writeDirect env.genVideoPath,
         .rename env.genVideoPath vP],
       .ok (pid, vP))
  else (e.1, e.2, .error "content parse error")

/-- The audio prerequisite of `step_compose`: regenerate via `step_tts`
when the audio artifact is missing or empty (`st_size == 0`). -/
def audioPhase (st : Settings) (env : RunEnv) (sc : PodcastScript) (fs : FS) :
    Except (FS × List Ev × String) (FS × List Ev) :=
  let aP := audioPathOf st (fingerprint sc.title sc.content)
  if hasFile fs aP ∧ fileSize fs aP ≠ 0 then .ok (fs, [])
  else
    match stepTTS st env sc false fs with
    | (fs', evs', .ok _) => .ok (fs', evs')
    | (fs', evs', .error e) => .error (fs', evs', e)

/-- The video prerequisite of `step_compose`: regenerate via `step_video`
when the video artifact is missing or below 1024 bytes (note `st_size <
1024`: a file of exactly 1024 bytes passes this prerequisite although the
video stage's own cache predicate demands strictly more). -/
def videoPhase (st : Settings) (env : RunEnv) (sc : PodcastScript)
    (s1 : FS × List Ev) : Except (FS × List Ev × String) (FS × List Ev) :=
  let vP := videoPathOf st (fingerprint sc.title sc.content)
  if hasFile s1.1 vP ∧ 1024 ≤ fileSize s1.1 vP then .ok s1
  else
    match stepVideo st env sc false s1.1 with
    | (fs', evs', .ok _) => .ok (fs', s1.2 ++ evs')
    | (fs', evs', .error e) => .error (fs', s1.2 ++ evs', e)

def composeEnsure (st : Settings) (env : RunEnv) (sc : PodcastScript)
    (fs : FS) : Except (FS × List Ev × String) (FS × List Ev) :=
  match audioPhase st env sc fs with
  | .error e => .error e
  | .ok s1 => videoPhase st env sc s1

/-- `TeaserGenerationWorkflow.step_compose`. Ensures audio and video,
then reuses or regenerates the final artifact. -/
def stepCompose (st : Settings) (env : RunEnv) (sc : PodcastScript)
    (force : Bool) (fs : FS) : FS × List Ev × Except String (String × String) :=
  let pid := fingerprint sc.title sc.content
  let fP := finalPathOf st pid
  match composeEnsure st env sc fs with
  | .error (fs', evs', e) => (fs', evs', .error e)
  | .ok (fs1, evs1) =>
    if hasFile fs1 fP ∧ 1024 < fileSize fs1 fP ∧ ¬ force then (fs1, evs1, .ok (pid, fP))
    else
      (osReplace (setFile fs1 env.genFinalPath env.finalBytes) env.genFinalPath fP,
       evs1 ++ [.invoke .compose, .writeDirect env.genFinalPath,
         .rename env.genFinalPath fP],
       .ok (pid, fP))

/-! ## Sora job submission payload (claim C10)

`VideoGenerationAgent._generate_via_sora` builds the job payload with
`"n_seconds": str(min(teaser_content.duration_seconds, 10))`
(video_agent.py line 155). -/

/-- The `n_seconds` value submitted to the remote video job. -/
def soraPayloadNSeconds (durationSeconds : Int) : Int := min durationSeconds 10

/-! ## Sora poll loop (claim C9)

video_agent.py lines 174-285: `max_wait = 300`, then
`while time.time() - start_time < max_wait: await asyncio.sleep(5); GET
status ...`; falling out of the loop raises "Sora job timed out".
Time is the rational elapsed seconds since `start_time`; each iteration
sleeps exactly 5 seconds and the status request consumes a
caller-chosen extra delay. The model records the instant of every
status query. -/

/-- Remote job statuses distinguished by the poll loop. -/
inductive SoraJobStatus
  | completed
  | succeeded
  | failed
  | pending
  | running
  | preprocessing
  | queued
  | processing
  | other (s : String)
  deriving DecidableEq, Repr

/-- One poll response: a non-200 HTTP reply (the code `continue`s), or a
parsed job status. -/
inductive PollResp
  | httpErr (code : Nat)
  | status (s : SoraJobStatus)

/-- Poll oracle: the `k`-th response and the extra elapsed time the
`k`-th status request takes beyond the 5-second sleep. -/
structure PollEnv where
  resp : Nat → PollResp
  netDelay : Nat → ℚ

/-- How the poll loop ends: hand off to the download phase, raise the
remote failure, raise "Sora job timed out", or run out of model fuel
(never happens with enough fuel, proved below). -/
inductive PollOutcome
  | download
  | jobFailed
  | timedOut
  | fuelOut
  deriving DecidableEq, Repr

/-- Statuses that hand off to download (`["completed", "succeeded"]`). -/
def isDone : SoraJobStatus → Bool
  | .completed => true
  | .succeeded => true
  | _ => false

/-- The poll loop. `t` is elapsed seconds, `k` the next response index,
`qs` the accumulated query instants. -/
def pollLoop (env : PollEnv) : Nat → ℚ → Nat → List ℚ → PollOutcome × List ℚ
  | 0, t, _, qs => if t < 300 then (.fuelOut, qs) else (.timedOut, qs)
  | fuel+1, t, k, qs =>
    if t < 300 then
      let qt := t + 5
      let qs' := qs ++ [qt]
      let t' := qt + env.netDelay k
      match env.resp k with
      | .httpErr _ => pollLoop env fuel t' (k+1) qs'
      | .status s =>
        if isDone s then (.download, qs')
        else if s = .failed then (.jobFailed, qs')
        else pollLoop env fuel t' (k+1) qs'
    else (.timedOut, qs)

/-! ## Sora download retry loop (claims C5, C8 and part of C7)

video_agent.py lines 211-273. Acceptance test (line 227):
`status_code == 200 and ('video/' in ctype or int(clen or 0) > 1000)`.
The body streams to `output_path + ".part"`; a shortfall against the
declared content length discards the temp file and retries (lines
237-246); otherwise `os.replace(tmp_path, output_path)` (line 248).
Exhausted retries fall back to
`_create_sora_success_placeholder(output_path, ...)`. -/

/-- One download response: HTTP status, whether the content-type contains
"video/", the declared content length (`0` when the header is absent,
matching `int(clen or 0)`), the bytes actually delivered, and whether the
request itself raised. -/
structure DResp where
  status : Nat
  mediaType : Bool
  clen : Nat
  body : Bytes
  netErr : Bool
  deriving DecidableEq, Repr

/-- Download oracle: per-attempt responses, per-attempt elapsed time
(request plus backoff sleep), the retry bounds, and the bytes the
success-placeholder renders on exhaustion. -/
structure DlEnv where
  resp : Nat → DResp
  dur : Nat → ℚ
  maxAttempts : Nat
  maxTotalSeconds : ℚ
  placeholderBytes : Bytes

/-- Classification of a single download attempt. -/
inductive AttemptOut
  | success (b : Bytes)
  | retryDiscard
  | retrySkip
  deriving DecidableEq, Repr

/-- One download attempt: the acceptance test, then the partial-content
test `if expected and bytes_written < expected`. -/
def attemptOutcome (r : DResp) : AttemptOut :=
  if r.netErr then .retrySkip
  else if r.status = 200 ∧ (r.mediaType = true ∨ 1000 < r.clen) then
    if r.clen ≠ 0 ∧ r.body.length < r.clen then .retryDiscard else .success r.body
  else .retrySkip

/-- Exhaustion fallback: `_create_sora_success_placeholder` renders a
labeled placeholder at the output path. Returns `false` for "no real
video was retrieved". -/
def dlFallback (env : DlEnv) (out : String) (fs : FS) (evs : List Ev) :
    FS × List Ev × Bool :=
  (setFile fs out env.placeholderBytes, evs ++ [.writeDirect out], false)

/-- The download retry loop
(`while attempts < max_attempts and elapsed < max_total_seconds`).
`attempts` counts completed attempts; fuel is bounded by the attempt
budget. -/
def dlLoop (env : DlEnv) (out : String) :
    Nat → Nat → ℚ → FS → List Ev → FS × List Ev × Bool
  | 0, _, _, fs, evs => dlFallback env out fs evs
  | fuel+1, attempts, elapsed, fs, evs =>
    if attempts < env.maxAttempts ∧ elapsed < env.maxTotalSeconds then
      let r := env.resp attempts
      let tmp := out ++ ".part"
      match attemptOutcome r with
      | .success b =>
        (osReplace (setFile fs tmp b) tmp out,
         evs ++ [.writeDirect tmp, .rename tmp out], true)
      | .retryDiscard =>
        dlLoop env out fuel (attempts+1) (elapsed + env.dur attempts)
          (removeFile (setFile fs tmp r.body) tmp)
          (evs ++ [.writeDirect tmp, .remove tmp])
      | .retrySkip =>
        dlLoop env out fuel (attempts+1) (elapsed + env.dur attempts) fs evs
    else dlFallback env out fs evs

/-- The whole download phase, entered with zero attempts and zero elapsed
time and exactly the attempt budget as fuel. -/
def soraDownload (env : DlEnv) (out : String) (fs : FS) : FS × List Ev × Bool :=
  dlLoop env out env.maxAttempts 0 0 fs []

/-! ## Download backoff (claim C8)

video_agent.py lines 263-268:
`sleep_for = min(delay * (backoff ** (attempts - 1)) + jitter, 30)` with
`jitter = random.uniform(0, 0.5)`. -/

/-- The deterministic component of the backoff delay before retrying
after attempt `k` (1-based, exponent `k - 1`). -/
def detDelay (initialDelay backoff : ℚ) (k : Nat) : ℚ := initialDelay * backoff ^ (k - 1)

/-- The full sleep: deterministic component plus jitter, capped at 30 s. -/
def sleepFor (initialDelay backoff : ℚ) (k : Nat) (jitter : ℚ) : ℚ :=
  min (detDelay initialDelay backoff k + jitter) 30

/-! ## Duration reconciliation (claim C4)

`CompositorAgent._compose_with_moviepy` (compositor_agent.py lines
63-128). Durations are rationals; the tolerance is 0.05 s. When the audio
is longer than the video plus tolerance the code builds a ping-pong loop:
whole copies of the forward clip and its time-reversed copy (both of
duration `tv`), appended while the accumulated duration is below the
audio duration, with an inner per-copy guard and an outer bound of 20
cycles; an overshoot beyond the tolerance is trimmed to exactly the audio
duration, and the audio is attached. -/

/-- Orientation of one concatenated copy of the video. -/
inductive ClipDir
  | fwd
  | rev
  deriving DecidableEq, Repr

/-- The tolerance (0.05 s). -/
def reconcileTol : ℚ := 1/20

/-- The `max_cycles` safety valve. -/
def maxCycles : Nat := 20

/-- One iteration of the `while` body: `for clip in [video, rev]` with
`if total >= audio.duration: break` before each append. -/
def cycleStep (ta tv : ℚ) (acc : List ClipDir × ℚ) : List ClipDir × ℚ :=
  let acc1 := if ta ≤ acc.2 then acc else (acc.1 ++ [ClipDir.fwd], acc.2 + tv)
  if ta ≤ acc1.2 then acc1 else (acc1.1 ++ [ClipDir.rev], acc1.2 + tv)

/-- The `while total < audio.duration and cycles < max_cycles` loop,
fuelled by the remaining cycle budget. -/
def buildSeq (ta tv : ℚ) : Nat → List ClipDir × ℚ → List ClipDir × ℚ
  | 0, acc => acc
  | fuel+1, acc => if acc.2 < ta then buildSeq ta tv fuel (cycleStep ta tv acc) else acc

/-- The assembled ping-pong sequence and its total duration. -/
def pingPong (ta tv : ℚ) : List ClipDir × ℚ := buildSeq ta tv maxCycles ([], 0)

/-- The reconciler's output: constituent segments, video-track duration,
and whether the audio track is attached. -/
structure ComposedVideo where
  segs : List ClipDir
  videoDur : ℚ
  hasAudio : Bool
  deriving DecidableEq, Repr

/-- `_compose_with_moviepy` on an audio track of duration `ta` and a
video track of duration `tv`. -/
def composeWithMoviepy (ta tv : ℚ) : ComposedVideo :=
  if tv + reconcileTol < ta then
    let pp := pingPong ta tv
    ⟨pp.1, if ta + reconcileTol < pp.2 then ta else pp.2, true⟩
  else
    ⟨[ClipDir.fwd], if ta + reconcileTol < tv then ta else tv, true⟩

/-- Segment `i` of the ideal alternating sequence: forward at even
positions, reversed at odd ones. -/
def altSeg (i : Nat) : ClipDir := if i % 2 = 0 then .fwd else .rev

/-- The alternating sequence of length `n`. -/
def altList (n : Nat) : List ClipDir := (List.range n).map altSeg

/-! ## Claim C10: the remote job is never asked for more than 10 seconds -/

/-- C10: the submitted `n_seconds` equals `min(duration_seconds, 10)`,
is never above 10, and is exactly 10 whenever the requested teaser
duration exceeds 10 seconds. -/
theorem sora_n_seconds_capped (d : Int) :
    soraPayloadNSeconds d = min d 10 ∧ soraPayloadNSeconds d ≤ 10 ∧
      (10 < d → soraPayloadNSeconds d = 10) := by
  refine ⟨rfl, min_le_right _ _, fun h => ?_⟩
  simpa [soraPayloadNSeconds] using min_eq_right h.le

/-- C10 (witness): a 22-second teaser asks the remote job for exactly
10 seconds of video. -/
theorem sora_n_seconds_capped_witness :
    (10 : Int) < 22 ∧ soraPayloadNSeconds 22 = 10 :=
  ⟨by decide, (sora_n_seconds_capped 22).2.2 (by decide)⟩

/-! ## Claim C8: backoff shape, monotonicity, cap -/

/-- C8: the sleep before the retry after attempt `k` is
`min(initialDelay * backoff^(k-1) + jitter, 30)`; for a backoff factor
of at least 1 (and a nonnegative initial delay) the deterministic
component is non-decreasing in the attempt number, and no sleep ever
exceeds the 30-second cap, whatever the jitter. -/
theorem backoff_monotone_and_capped (d b j : ℚ) (k : Nat)
    (hd : 0 ≤ d) (hb : 1 ≤ b) :
    sleepFor d b k j = min (d * b ^ (k - 1) + j) 30 ∧
      detDelay d b k ≤ detDelay d b (k + 1) ∧
      sleepFor d b k j ≤ 30 := by
  refine ⟨rfl, ?_, min_le_right _ _⟩
  unfold detDelay
  have hpow : b ^ (k - 1) ≤ b ^ (k + 1 - 1) := pow_le_pow_right₀ hb (by omega)
  exact mul_le_mul_of_nonneg_left hpow hd

/-- C8 (witness): concrete delays with initial delay 2, backoff factor 2,
jitter 1/4 at attempt 3. -/
theorem backoff_monotone_and_capped_witness :
    (0 : ℚ) ≤ 2 ∧ (1 : ℚ) ≤ 2 ∧
      (sleepFor 2 2 3 (1/4) = min (2 * 2 ^ (3 - 1) + 1/4) 30 ∧
        detDelay 2 2 3 ≤ detDelay 2 2 4 ∧ sleepFor 2 2 3 (1/4) ≤ 30) :=
  ⟨by norm_num, by norm_num, backoff_monotone_and_capped 2 2 (1/4) 3 (by norm_num) (by norm_num)⟩

/-! ## Claim C4: the ping-pong duration reconciler -/

theorem altList_succ (n : Nat) : altList (n+1) = altList n ++ [altSeg n] := by
  simp [altList, List.range_succ]

/-- Loop invariant: the accumulated sequence is the alternating prefix,
the accumulated total is its length times the clip duration, and the
sequence has even length unless the target was already reached (the
inner `break`). -/
def GoodAcc (ta tv : ℚ) (acc : List ClipDir × ℚ) : Prop :=
  acc.1 = altList acc.1.length ∧ acc.2 = acc.1.length * tv ∧
    (acc.1.length % 2 = 0 ∨ ta ≤ acc.2)

theorem cycleStep_good (ta tv : ℚ) (acc : List ClipDir × ℚ)
    (h : GoodAcc ta tv acc) (hlt : acc.2 < ta) :
    GoodAcc ta tv (cycleStep ta tv acc) := by
  obtain ⟨halt, htot, hpar⟩ := h
  have heven : acc.1.length % 2 = 0 := by
    rcases hpar with h | h
    · exact h
    · exact absurd hlt (not_lt.mpr h)
  have hnot : ¬ ta ≤ acc.2 := not_le.mpr hlt
  have hfwd : altSeg acc.1.length = ClipDir.fwd := by simp [altSeg, heven]
  have halt1 : acc.1 ++ [ClipDir.fwd] = altList (acc.1.length + 1) := by
    rw [altList_succ, ← halt, hfwd]
  have hstep : cycleStep ta tv acc =
      if ta ≤ acc.2 + tv then (acc.1 ++ [ClipDir.fwd], acc.2 + tv)
      else (acc.1 ++ [ClipDir.fwd] ++ [ClipDir.rev], acc.2 + tv + tv) := by
    simp only [cycleStep, if_neg hnot]
  rw [hstep]
  by_cases h2 : ta ≤ acc.2 + tv
  · rw [if_pos h2]
    refine ⟨?_, ?_, Or.inr h2⟩
    · simpa using halt1
    · show acc.2 + tv = ((acc.1 ++ [ClipDir.fwd]).length : ℚ) * tv
      rw [htot]
      push_cast [List.length_append, List.length_singleton]
      ring
  · rw [if_neg h2]
    have hodd : (acc.1.length + 1) % 2 = 1 := by omega
    have hrev : altSeg (acc.1.length + 1) = ClipDir.rev := by simp [altSeg, hodd]
    have halt2 : acc.1 ++ [ClipDir.fwd] ++ [ClipDir.rev] = altList (acc.1.length + 1 + 1) := by
      rw [altList_succ, ← halt1, hrev]
    refine ⟨?_, ?_, Or.inl ?_⟩
    · simpa using halt2
    · show acc.2 + tv + tv = ((acc.1 ++ [ClipDir.fwd] ++ [ClipDir.rev]).length : ℚ) * tv
      rw [htot]
      push_cast [List.length_append, List.length_singleton]
      ring
    · show (acc.1 ++ [ClipDir.fwd] ++ [ClipDir.rev]).length % 2 = 0
      have : (acc.1 ++ [ClipDir.fwd] ++ [ClipDir.rev]).length = acc.1.length + 2 := by
        simp
      rw [this]
      omega

theorem buildSeq_good (ta tv : ℚ) (fuel : Nat) :
    ∀ acc, GoodAcc ta tv acc → GoodAcc ta tv (buildSeq ta tv fuel acc) := by
  induction fuel with
  | zero => intro acc h; exact h
  | succ fuel ih =>
    intro acc h
    unfold buildSeq
    by_cases hlt : acc.2 < ta
    · rw [if_pos hlt]
      exact ih _ (cycleStep_good ta tv acc h hlt)
    · rw [if_neg hlt]
      exact h

theorem cycleStep_full (ta tv : ℚ) (acc : List ClipDir × ℚ)
    (hlt : acc.2 < ta) (hres : ¬ ta ≤ (cycleStep ta tv acc).2) :
    (cycleStep ta tv acc).1.length = acc.1.length + 2 := by
  unfold cycleStep at hres ⊢
  rw [if_neg (not_le.mpr hlt)] at hres ⊢
  by_cases h2 : ta ≤ acc.2 + tv
  · rw [if_pos h2] at hres
    exact absurd h2 hres
  · rw [if_neg h2]
    simp

theorem buildSeq_exhaust (ta tv : ℚ) (fuel : Nat) :
    ∀ acc, (buildSeq ta tv fuel acc).2 < ta →
      (buildSeq ta tv fuel acc).1.length = acc.1.length + 2 * fuel := by
  induction fuel with
  | zero => intro acc _; simp [buildSeq]
  | succ fuel ih =>
    intro acc hfin
    unfold buildSeq at hfin ⊢
    by_cases hlt : acc.2 < ta
    · rw [if_pos hlt] at hfin ⊢
      by_cases hcy : ta ≤ (cycleStep ta tv acc).2
      · exfalso
        have hstops : ¬ (cycleStep ta tv acc).2 < ta := not_lt.mpr hcy
        cases fuel with
        | zero => simp [buildSeq] at hfin; exact hstops hfin
        | succ fuel' =>
          unfold buildSeq at hfin
          rw [if_neg hstops] at hfin
          exact hstops hfin
      · have := ih (cycleStep ta tv acc) hfin
        rw [this, cycleStep_full ta tv acc hlt hcy]
        omega
    · rw [if_neg hlt] at hfin
      exact absurd hfin hlt

/-- C4: whenever the audio is longer than the video plus the 0.05 s
tolerance, the reconciler concatenates whole alternating
forward/time-reversed copies of the video (each of duration `tv`) until
the accumulated duration reaches the audio duration or the 20-cycle
bound is exhausted, trims an overshoot beyond the tolerance back to
exactly the audio duration, and attaches the audio; concretely, for a
22-second audio track over a 7-second video the output lasts exactly
22 s (within the 0.05 s tolerance) and uses 4 segments, at most
`ceil(22/7) + 1 = 5`. -/
theorem duration_reconciler_ping_pong :
    (∀ ta tv : ℚ, tv + reconcileTol < ta →
      (pingPong ta tv).1 = altList (pingPong ta tv).1.length ∧
      (pingPong ta tv).2 = (pingPong ta tv).1.length * tv ∧
      (ta ≤ (pingPong ta tv).2 ∨ (pingPong ta tv).1.length = 2 * maxCycles) ∧
      (composeWithMoviepy ta tv).segs = (pingPong ta tv).1 ∧
      (ta + reconcileTol < (pingPong ta tv).2 →
        (composeWithMoviepy ta tv).videoDur = ta) ∧
      (composeWithMoviepy ta tv).hasAudio = true) ∧
    ((composeWithMoviepy 22 7).videoDur = 22 ∧
      abs ((composeWithMoviepy 22 7).videoDur - 22) ≤ reconcileTol ∧
      (composeWithMoviepy 22 7).segs = [.fwd, .rev, .fwd, .rev] ∧
      (composeWithMoviepy 22 7).segs.length ≤ Nat.ceil ((22 : ℚ) / 7) + 1 ∧
      (composeWithMoviepy 22 7).hasAudio = true) := by
  constructor
  · intro ta tv hlong
    have hgood : GoodAcc ta tv (pingPong ta tv) :=
      buildSeq_good ta tv maxCycles ([], 0) ⟨rfl, by simp, Or.inl rfl⟩
    obtain ⟨halt, htot, _⟩ := hgood
    refine ⟨halt, htot, ?_, ?_, ?_, ?_⟩
    · by_cases hdone : ta ≤ (pingPong ta tv).2
      · exact Or.inl hdone
      · refine Or.inr ?_
        have := buildSeq_exhaust ta tv maxCycles ([], 0) (not_le.mp hdone)
        simpa [pingPong] using this
    · simp [composeWithMoviepy, if_pos hlong]
    · intro hover
      simp [composeWithMoviepy, if_pos hlong, if_pos hover]
    · simp [composeWithMoviepy, if_pos hlong]
  · have hcomp : composeWithMoviepy 22 7 =
        ⟨[.fwd, .rev, .fwd, .rev], 22, true⟩ := by
      norm_num [composeWithMoviepy, pingPong, maxCycles, buildSeq, cycleStep, reconcileTol]
    have hceil : Nat.ceil ((22 : ℚ) / 7) = 4 := by
      rw [Nat.ceil_eq_iff (by norm_num)]
      norm_num
    rw [hcomp, hceil]
    refine ⟨rfl, by norm_num [reconcileTol], rfl, by norm_num, rfl⟩

/-- C4 (witness): the general part of `duration_reconciler_ping_pong`
instantiated at audio duration 22 s and video duration 7 s. -/
theorem duration_reconciler_ping_pong_witness :
    (7 : ℚ) + reconcileTol < 22 ∧
      (pingPong 22 7).1 = altList (pingPong 22 7).1.length ∧
      ((22 : ℚ) ≤ (pingPong 22 7).2 ∨ (pingPong 22 7).1.length = 2 * maxCycles) :=
  ⟨by norm_num [reconcileTol],
   (duration_reconciler_ping_pong.1 22 7 (by norm_num [reconcileTol])).1,
   (duration_reconciler_ping_pong.1 22 7 (by norm_num [reconcileTol])).2.2.1⟩

/-! ## Claim C1: chains degrade to their placeholder -/

/-- C1 (counterexample): with the MCP and Sora providers both raising and
MoviePy present but failing during the placeholder render, the video
chain raises to its caller instead of returning a placeholder path, so
"the chain never raises" is false as stated: the final placeholder is
itself fallible. -/
theorem video_chain_raises_when_placeholder_fails :
    (VideoChainEnv.mk true (.error "mcp down") true (.error "sora down")
        (.writeError "moviepy render failed")).mcpResult = .error "mcp down" ∧
      (VideoChainEnv.mk true (.error "mcp down") true (.error "sora down")
        (.writeError "moviepy render failed")).soraResult = .error "sora down" ∧
      generateVideo
        (VideoChainEnv.mk true (.error "mcp down") true (.error "sora down")
          (.writeError "moviepy render failed"))
        "outputs/teaser_video_ab12cd34.mp4"
        = .error "moviepy render failed" := by
  refine ⟨rfl, rfl, rfl⟩

/-- C1 (amended): the content-extraction chain can never raise — whatever
the providers do it returns some content, and when both providers fail it
returns exactly the deterministic default content; the video chain
returns the placeholder path whenever its providers fail, PROVIDED the
placeholder generator itself does not raise (it raises exactly when
MoviePy is importable but errors while writing, the case of the
counterexample; an absent MoviePy degrades to an empty stub file instead
of raising). -/
theorem chains_degrade_to_placeholder :
    (∀ (cenv : ContentChainEnv) (sc : PodcastScript) (maxDur : Int),
      (∃ c, extractTeaserContent cenv sc maxDur = .ok c) ∧
      ((cenv.mcpAvailable = true → ∃ e, cenv.mcpResult = .error e) →
       (cenv.openaiConfigured = true → ∃ e, cenv.openaiResult = .error e) →
       extractTeaserContent cenv sc maxDur = .ok (createDefaultContent sc maxDur))) ∧
    (∀ (venv : VideoChainEnv) (p : String),
      (venv.mcpAvailable = true → ∃ e, venv.mcpResult = .error e) →
      (venv.soraConfigured = true → ∃ e, venv.soraResult = .error e) →
      (∀ m, venv.moviepy ≠ .writeError m) →
      generateVideo venv p = .ok p) := by
  constructor
  · intro cenv sc maxDur
    constructor
    · unfold extractTeaserContent
      by_cases h1 : cenv.mcpAvailable
      · cases hm : cenv.mcpResult with
        | ok c => exact ⟨c, by simp [h1, hm]⟩
        | error e =>
          by_cases h2 : cenv.openaiConfigured
          · cases ho : cenv.openaiResult with
            | ok c => exact ⟨c, by simp [h1, hm, h2, ho]⟩
            | error e' => exact ⟨createDefaultContent sc maxDur, by simp [h1, hm, h2, ho]⟩
          · exact ⟨createDefaultContent sc maxDur, by simp [h1, hm, h2]⟩
      · by_cases h2 : cenv.openaiConfigured
        · cases ho : cenv.openaiResult with
          | ok c => exact ⟨c, by simp [h1, h2, ho]⟩
          | error e' => exact ⟨createDefaultContent sc maxDur, by simp [h1, h2, ho]⟩
        · exact ⟨createDefaultContent sc maxDur, by simp [h1, h2]⟩
    · intro hmcp hoai
      unfold extractTeaserContent
      by_cases h1 : cenv.mcpAvailable
      · obtain ⟨e, hm⟩ := hmcp h1
        by_cases h2 : cenv.openaiConfigured
        · obtain ⟨e', ho⟩ := hoai h2
          simp [h1, hm, h2, ho]
        · simp [h1, hm, h2]
      · by_cases h2 : cenv.openaiConfigured
        · obtain ⟨e', ho⟩ := hoai h2
          simp [h1, h2, ho]
        · simp [h1, h2]
  · intro venv p hmcp hsora hmp
    have hph : ∃ b, createPlaceholderVideo venv.moviepy = .ok b := by
      cases hmpv : venv.moviepy with
      | ok rendered => exact ⟨rendered, rfl⟩
      | importError => exact ⟨[], rfl⟩
      | writeError m => exact absurd hmpv (hmp m)
    obtain ⟨b, hb⟩ := hph
    unfold generateVideo
    by_cases h1 : venv.mcpAvailable
    · obtain ⟨e, hm⟩ := hmcp h1
      by_cases h2 : venv.soraConfigured
      · obtain ⟨e', hs⟩ := hsora h2
        simp [h1, hm, h2, hs, hb]
      · simp [h1, hm, h2, hb]
    · by_cases h2 : venv.soraConfigured
      · obtain ⟨e', hs⟩ := hsora h2
        simp [h1, h2, hs, hb]
      · simp [h1, h2, hb]

/-- C1 (witness): `chains_degrade_to_placeholder` at a concrete
environment in which both content providers and both video providers
raise and MoviePy renders the placeholder successfully. -/
theorem chains_degrade_to_placeholder_witness :
    extractTeaserContent
        (ContentChainEnv.mk true (.error "mcp down") true (.error "openai down"))
        (PodcastScript.mk "Ep1" "script text") 15
      = .ok (createDefaultContent (PodcastScript.mk "Ep1" "script text") 15) ∧
      generateVideo
        (VideoChainEnv.mk true (.error "mcp down") true (.error "sora down")
          (.ok (List.replicate 2048 0)))
        "outputs/teaser_video_ab12cd34.mp4"
      = .ok "outputs/teaser_video_ab12cd34.mp4" :=
  ⟨(chains_degrade_to_placeholder.1
      (ContentChainEnv.mk true (.error "mcp down") true (.error "openai down"))
      (PodcastScript.mk "Ep1" "script text") 15).2
      (fun _ => ⟨"mcp down", rfl⟩) (fun _ => ⟨"openai down", rfl⟩),
   chains_degrade_to_placeholder.2
      (VideoChainEnv.mk true (.error "mcp down") true (.error "sora down")
        (.ok (List.replicate 2048 0)))
      "outputs/teaser_video_ab12cd34.mp4"
      (fun _ => ⟨"mcp down", rfl⟩) (fun _ => ⟨"sora down", rfl⟩)
      (fun _ h => MoviePyEnv.noConfusion h)⟩

/-! ## Claim C5: download acceptance and partial-download rejection -/

theorem append_part_ne (s : String) : s ++ ".part" ≠ s := by
  intro h
  have hlen := congrArg String.length h
  rw [String.length_append] at hlen
  have h5 : (".part" : String).length = 5 := rfl
  omega

theorem attemptOutcome_success_iff (r : DResp) (b : Bytes) :
    attemptOutcome r = .success b ↔
      r.netErr = false ∧ (r.status = 200 ∧ (r.mediaType = true ∨ 1000 < r.clen)) ∧
        ¬ (r.clen ≠ 0 ∧ r.body.length < r.clen) ∧ b = r.body := by
  unfold attemptOutcome
  by_cases h1 : r.netErr = true
  · rw [if_pos h1]
    constructor
    · intro h
      exact AttemptOut.noConfusion h
    · rintro ⟨hne, -, -, -⟩
      rw [h1] at hne
      exact Bool.noConfusion hne
  · have hne : r.netErr = false := by simpa using h1
    rw [if_neg h1]
    by_cases h2 : r.status = 200 ∧ (r.mediaType = true ∨ 1000 < r.clen)
    · rw [if_pos h2]
      by_cases h3 : r.clen ≠ 0 ∧ r.body.length < r.clen
      · rw [if_pos h3]
        constructor
        · intro h
          exact AttemptOut.noConfusion h
        · rintro ⟨-, -, hful, -⟩
          exact absurd h3 hful
      · rw [if_neg h3]
        constructor
        · intro h
          injection h with hb
          exact ⟨hne, h2, h3, hb.symm⟩
        · rintro ⟨-, -, -, hb⟩
          rw [hb]
    · rw [if_neg h2]
      constructor
      · intro h
        exact AttemptOut.noConfusion h
      · rintro ⟨-, hacc, -⟩
        exact absurd hacc h2

/-- The contents of the canonical output path after the download loop:
a real download puts the full body of an attempt that passed both the
acceptance test and the completeness test there; exhaustion puts the
labeled placeholder there; the `.part` temp path is never freshly left
behind. -/
theorem dlLoop_canonical (env : DlEnv) (out : String) :
    ∀ (fuel attempts : Nat) (elapsed : ℚ) (fs : FS) (evs : List Ev),
      ((dlLoop env out fuel attempts elapsed fs evs).2.2 = true →
        ∃ k, attemptOutcome (env.resp k) = .success (env.resp k).body ∧
          getFile (dlLoop env out fuel attempts elapsed fs evs).1 out
            = some (env.resp k).body ∧
          ((env.resp k).clen = 0 ∨ (env.resp k).clen ≤ (env.resp k).body.length)) ∧
      ((dlLoop env out fuel attempts elapsed fs evs).2.2 = false →
        getFile (dlLoop env out fuel attempts elapsed fs evs).1 out
          = some env.placeholderBytes) ∧
      (getFile (dlLoop env out fuel attempts elapsed fs evs).1 (out ++ ".part") = none ∨
        getFile (dlLoop env out fuel attempts elapsed fs evs).1 (out ++ ".part")
          = getFile fs (out ++ ".part")) := by
  intro fuel
  induction fuel with
  | zero =>
    intro attempts elapsed fs evs
    refine ⟨fun h => by simp [dlLoop, dlFallback] at h, fun _ => ?_, Or.inr ?_⟩
    · simp [dlLoop, dlFallback, getFile_setFile_self]
    · simp [dlLoop, dlFallback]
      rw [getFile_setFile_ne _ _ _ _ (fun h => append_part_ne out h.symm)]
  | succ fuel ih =>
    intro attempts elapsed fs evs
    by_cases hcond : attempts < env.maxAttempts ∧ elapsed < env.maxTotalSeconds
    · have hstep : dlLoop env out (fuel+1) attempts elapsed fs evs =
          match attemptOutcome (env.resp attempts) with
          | .success b =>
            (osReplace (setFile fs (out ++ ".part") b) (out ++ ".part") out,
             evs ++ [.writeDirect (out ++ ".part"), .rename (out ++ ".part") out], true)
          | .retryDiscard =>
            dlLoop env out fuel (attempts+1) (elapsed + env.dur attempts)
              (removeFile (setFile fs (out ++ ".part") (env.resp attempts).body)
                (out ++ ".part"))
              (evs ++ [.writeDirect (out ++ ".part"), .remove (out ++ ".part")])
          | .retrySkip =>
            dlLoop env out fuel (attempts+1) (elapsed + env.dur attempts) fs evs := by
        simp only [dlLoop, if_pos hcond]
      cases hout : attemptOutcome (env.resp attempts) with
      | success b =>
        rw [hstep, hout]
        obtain ⟨hne, hacc, hfull, hbody⟩ := (attemptOutcome_success_iff _ _).mp hout
        subst hbody
        refine ⟨fun _ => ⟨attempts, hout, ?_, ?_⟩, fun h => by simp at h, Or.inl ?_⟩
        · exact getFile_osReplace_dst _ _ _ _ (getFile_setFile_self _ _ _)
        · push_neg at hfull
          by_cases hz : (env.resp attempts).clen = 0
          · exact Or.inl hz
          · exact Or.inr (hfull hz)
        · show getFile (osReplace (setFile fs (out ++ ".part") _) (out ++ ".part") out)
            (out ++ ".part") = none
          unfold osReplace
          rw [getFile_setFile_self]
          rw [getFile_setFile_ne _ _ _ _ (fun h => append_part_ne out h.symm),
            getFile_removeFile, if_pos rfl]
      | retryDiscard =>
        rw [hstep, hout]
        refine ⟨(ih _ _ _ _).1, (ih _ _ _ _).2.1, ?_⟩
        rcases (ih (attempts+1) (elapsed + env.dur attempts)
            (removeFile (setFile fs (out ++ ".part") (env.resp attempts).body)
              (out ++ ".part"))
            (evs ++ [.writeDirect (out ++ ".part"), .remove (out ++ ".part")])).2.2 with
          h | h
        · exact Or.inl h
        · rw [h, getFile_removeFile, if_pos rfl]
          exact Or.inl rfl
      | retrySkip =>
        rw [hstep, hout]
        exact ih _ _ _ _
    · have hstep : dlLoop env out (fuel+1) attempts elapsed fs evs
          = dlFallback env out fs evs := by
        simp only [dlLoop, if_neg hcond]
      rw [hstep]
      refine ⟨fun h => by simp [dlFallback] at h, fun _ => ?_, Or.inr ?_⟩
      · simp [dlFallback, getFile_setFile_self]
      · simp only [dlFallback]
        rw [getFile_setFile_ne _ _ _ _ (fun h => append_part_ne out h.symm)]

/-- C5: a download attempt is treated as a success only when its HTTP
status is 200 AND (its content-type contains "video/" OR its declared
content-length exceeds 1000 bytes); an attempt whose declared
content-length exceeds the delivered bytes is never a success — when it
passed the acceptance test its temp file is discarded and the attempt
retried — and across the whole retry loop only a complete body (or the
labeled exhaustion placeholder) ever lands at the canonical output path,
never a truncated file. -/
theorem download_partial_rejected :
    (∀ (r : DResp) (b : Bytes), attemptOutcome r = .success b →
      (r.status = 200 ∧ (r.mediaType = true ∨ 1000 < r.clen)) ∧ b = r.body ∧
        (r.clen = 0 ∨ r.clen ≤ r.body.length)) ∧
    (∀ r : DResp, r.body.length < r.clen →
      (∀ b, attemptOutcome r ≠ .success b) ∧
      (r.netErr = false → r.status = 200 → (r.mediaType = true ∨ 1000 < r.clen) →
        attemptOutcome r = .retryDiscard)) ∧
    (∀ (env : DlEnv) (out : String) (fs : FS),
      ((soraDownload env out fs).2.2 = true →
        ∃ k, attemptOutcome (env.resp k) = .success (env.resp k).body ∧
          getFile (soraDownload env out fs).1 out = some (env.resp k).body ∧
          ((env.resp k).clen = 0 ∨ (env.resp k).clen ≤ (env.resp k).body.length)) ∧
      ((soraDownload env out fs).2.2 = false →
        getFile (soraDownload env out fs).1 out = some env.placeholderBytes)) := by
  refine ⟨?_, ?_, ?_⟩
  · intro r b h
    obtain ⟨hne, hacc, hfull, hbody⟩ := (attemptOutcome_success_iff _ _).mp h
    subst hbody
    push_neg at hfull
    refine ⟨hacc, rfl, ?_⟩
    by_cases hz : r.clen = 0
    · exact Or.inl hz
    · exact Or.inr (hfull hz)
  · intro r htrunc
    constructor
    · intro b h
      obtain ⟨hne, hacc, hfull, hbody⟩ := (attemptOutcome_success_iff _ _).mp h
      push_neg at hfull
      have : r.clen ≤ r.body.length := hfull (by omega)
      omega
    · intro hne hst hmedia
      unfold attemptOutcome
      rw [if_neg (by simp [hne]), if_pos ⟨hst, hmedia⟩, if_pos ⟨by omega, htrunc⟩]
  · intro env out fs
    exact ⟨(dlLoop_canonical env out _ _ _ _ _).1, (dlLoop_canonical env out _ _ _ _ _).2.1⟩

/-- C5 (witness): the spec's probe — a response declaring content-length
5000 while delivering 3000 bytes is rejected and retried, and a loop that
only ever sees that response ends degrading to the placeholder, which is
what lands at the canonical path. -/
theorem download_partial_rejected_witness :
    (DResp.mk 200 true 5000 (List.replicate 3000 7) false).body.length < 5000 ∧
      attemptOutcome (DResp.mk 200 true 5000 (List.replicate 3000 7) false)
        = .retryDiscard := by
  have hlen : (DResp.mk 200 true 5000 (List.replicate 3000 7) false).body.length < 5000 := by
    show (List.replicate 3000 7).length < 5000
    rw [List.length_replicate]
    omega
  exact ⟨hlen, (download_partial_rejected.2.1 _ hlen).2 rfl rfl (Or.inl rfl)⟩

/-! ## Claim C9: the poll loop's 5-second cadence and 300-second ceiling -/

/-- A poll response that keeps the loop polling: a non-200 reply, or a
status that is neither terminal-successful nor "failed" (in-flight and
unrecognized statuses alike). -/
def ContinuesResp : PollResp → Prop
  | .httpErr _ => True
  | .status s => isDone s = false ∧ s ≠ .failed

/-- The ideal query schedule: `n` queries starting after index `k`, the
`i`-th at `5 * (k + i + 1)` seconds. -/
def qtimes (k n : Nat) : List ℚ :=
  (List.range n).map (fun (i : Nat) => 5 * ((k : ℚ) + (i : ℚ) + 1))

theorem qtimes_succ (k n : Nat) :
    qtimes k (n+1) = (5 * (k : ℚ) + 5) :: qtimes (k+1) n := by
  unfold qtimes
  rw [List.range_succ_eq_map, List.map_cons, List.map_map]
  congr 1
  · push_cast
    ring
  · exact List.map_congr_left (fun i _ => by push_cast [Function.comp]; ring)

/-- With enough fuel (the loop runs at most 60 iterations since each
iteration advances time by at least 5 seconds), a job that never reports
success or failure makes the loop end in the timeout error. -/
theorem pollLoop_timeout (env : PollEnv)
    (hcont : ∀ k, ContinuesResp (env.resp k)) (hnd : ∀ k, 0 ≤ env.netDelay k) :
    ∀ (fuel : Nat) (t : ℚ) (k : Nat) (qs : List ℚ),
      300 ≤ t + 5 * fuel → (pollLoop env fuel t k qs).1 = .timedOut := by
  intro fuel
  induction fuel with
  | zero =>
    intro t k qs hle
    have : ¬ t < 300 := by push_cast at hle; linarith
    simp [pollLoop, this]
  | succ fuel ih =>
    intro t k qs hle
    by_cases ht : t < 300
    · have hrec : 300 ≤ (t + 5 + env.netDelay k) + 5 * fuel := by
        have := hnd k
        push_cast at hle ⊢
        linarith
      cases hr : env.resp k with
      | httpErr code =>
        simp only [pollLoop, if_pos ht, hr]
        exact ih _ _ _ hrec
      | status s =>
        have hc := hcont k
        rw [hr] at hc
        obtain ⟨hdone, hfail⟩ := hc
        simp only [pollLoop, if_pos ht, hr, hdone, Bool.false_eq_true, if_false,
          if_neg hfail]
        exact ih _ _ _ hrec
    · simp [pollLoop, ht]

/-- Every status query is issued from an iteration entered while the
elapsed time was below the 300-second ceiling, so no query instant ever
reaches 305 seconds: the loop never keeps polling once the ceiling has
passed. -/
theorem pollLoop_ceiling (env : PollEnv) :
    ∀ (fuel : Nat) (t : ℚ) (k : Nat) (qs : List ℚ),
      (∀ q ∈ qs, q < 305) →
      ∀ q ∈ (pollLoop env fuel t k qs).2, q < 305 := by
  intro fuel
  induction fuel with
  | zero =>
    intro t k qs hqs q hq
    by_cases ht : t < 300 <;> simp [pollLoop, ht] at hq <;> exact hqs q hq
  | succ fuel ih =>
    intro t k qs hqs q hq
    by_cases ht : t < 300
    · have hq5 : ∀ x ∈ qs ++ [t + 5], x < 305 := by
        intro x hx
        rcases List.mem_append.mp hx with hx | hx
        · exact hqs x hx
        · rw [List.mem_singleton.mp hx]
          linarith
      cases hr : env.resp k with
      | httpErr code =>
        rw [show pollLoop env (fuel+1) t k qs
            = pollLoop env fuel (t + 5 + env.netDelay k) (k+1) (qs ++ [t + 5]) from by
          simp only [pollLoop, if_pos ht, hr]] at hq
        exact ih _ _ _ hq5 q hq
      | status s =>
        cases hd : isDone s with
        | true =>
          rw [show (pollLoop env (fuel+1) t k qs).2 = qs ++ [t + 5] from by
            simp [pollLoop, ht, hr, hd]] at hq
          exact hq5 q hq
        | false =>
          by_cases hf : s = .failed
          · rw [show (pollLoop env (fuel+1) t k qs).2 = qs ++ [t + 5] from by
              simp [pollLoop, ht, hr, hd, hf, isDone]] at hq
            exact hq5 q hq
          · rw [show pollLoop env (fuel+1) t k qs
                = pollLoop env fuel (t + 5 + env.netDelay k) (k+1) (qs ++ [t + 5]) from by
              simp [pollLoop, ht, hr, hd, hf]] at hq
            exact ih _ _ _ hq5 q hq
    · simp [pollLoop, ht] at hq
      exact hqs q hq

/-- With instantaneous status requests the query instants are exactly
5, 10, 15, …: one query every 5 seconds. -/
theorem pollLoop_qtimes (env : PollEnv) (h0 : ∀ k, env.netDelay k = 0) :
    ∀ (fuel k : Nat) (qs : List ℚ),
      ∃ n, (pollLoop env fuel (5 * (k : ℚ)) k qs).2 = qs ++ qtimes k n := by
  intro fuel
  induction fuel with
  | zero =>
    intro k qs
    refine ⟨0, ?_⟩
    by_cases ht : 5 * (k : ℚ) < 300 <;> simp [pollLoop, ht, qtimes]
  | succ fuel ih =>
    intro k qs
    by_cases ht : 5 * (k : ℚ) < 300
    · have hT : 5 * (k : ℚ) + 5 + env.netDelay k = 5 * ((k + 1 : Nat) : ℚ) := by
        rw [h0 k]
        push_cast
        ring
      cases hr : env.resp k with
      | httpErr code =>
        rw [show pollLoop env (fuel+1) (5 * (k : ℚ)) k qs
            = pollLoop env fuel (5 * (k : ℚ) + 5 + env.netDelay k) (k+1)
              (qs ++ [5 * (k : ℚ) + 5]) from by
          simp only [pollLoop, if_pos ht, hr]]
        rw [hT]
        obtain ⟨n, hn⟩ := ih (k+1) (qs ++ [5 * (k : ℚ) + 5])
        refine ⟨n+1, ?_⟩
        rw [hn, qtimes_succ]
        simp
      | status s =>
        cases hd : isDone s with
        | true =>
          refine ⟨1, ?_⟩
          rw [show (pollLoop env (fuel+1) (5 * (k : ℚ)) k qs).2
              = qs ++ [5 * (k : ℚ) + 5] from by
            simp [pollLoop, ht, hr, hd]]
          rw [qtimes_succ]
          simp [qtimes]
        | false =>
          by_cases hf : s = .failed
          · refine ⟨1, ?_⟩
            rw [show (pollLoop env (fuel+1) (5 * (k : ℚ)) k qs).2
                = qs ++ [5 * (k : ℚ) + 5] from by
              simp [pollLoop, ht, hr, hd, hf, isDone]]
            rw [qtimes_succ]
            simp [qtimes]
          · rw [show pollLoop env (fuel+1) (5 * (k : ℚ)) k qs
                = pollLoop env fuel (5 * (k : ℚ) + 5 + env.netDelay k) (k+1)
                  (qs ++ [5 * (k : ℚ) + 5]) from by
              simp [pollLoop, ht, hr, hd, hf]]
            rw [hT]
            obtain ⟨n, hn⟩ := ih (k+1) (qs ++ [5 * (k : ℚ) + 5])
            refine ⟨n+1, ?_⟩
            rw [hn, qtimes_succ]
            simp
    · refine ⟨0, ?_⟩
      simp [pollLoop, ht, qtimes]

/-- C9: the poll loop queries the job status every 5 seconds (exactly,
when status requests are instantaneous: the query instants are
5, 10, 15, …); it never keeps polling past the 300-second wall-clock
ceiling (no query is issued at or after 305 s, the first check past the
ceiling stopping the loop); and when the job never reports success or
failure, the loop terminates — with the fuel bound 61 that dominates its
at-most-60 iterations — in the raised "Sora job timed out" error rather
than hanging. -/
theorem poll_loop_five_second_300_ceiling :
    (∀ (env : PollEnv), (∀ k, env.netDelay k = 0) →
      ∀ fuel, ∃ n, (pollLoop env fuel 0 0 []).2 = qtimes 0 n) ∧
    (∀ (env : PollEnv) (fuel : Nat),
      ∀ q ∈ (pollLoop env fuel 0 0 []).2, q < 305) ∧
    (∀ (env : PollEnv), (∀ k, ContinuesResp (env.resp k)) →
      (∀ k, 0 ≤ env.netDelay k) →
      ∀ fuel, 60 ≤ fuel → (pollLoop env fuel 0 0 []).1 = .timedOut) := by
  refine ⟨?_, ?_, ?_⟩
  · intro env h0 fuel
    have := pollLoop_qtimes env h0 fuel 0 []
    simpa using this
  · intro env fuel q hq
    have h0 : ∀ x ∈ ([] : List ℚ), x < 305 := by simp
    exact pollLoop_ceiling env fuel 0 0 [] h0 q hq
  · intro env hcont hnd fuel hfuel
    apply pollLoop_timeout env hcont hnd
    have : (300 : ℚ) ≤ 5 * 60 := by norm_num
    have hcast : (60 : ℚ) ≤ (fuel : ℚ) := by exact_mod_cast hfuel
    linarith

/-- C9 (witness): `poll_loop_five_second_300_ceiling` at the concrete
environment whose job stays "running" forever with instantaneous
responses: the queries run every 5 seconds and fuel 61 ends in the
timeout error. -/
theorem poll_loop_five_second_300_ceiling_witness :
    (pollLoop (PollEnv.mk (fun _ => .status .running) (fun _ => 0)) 61 0 0 []).1
      = .timedOut :=
  poll_loop_five_second_300_ceiling.2.2
    (PollEnv.mk (fun _ => .status .running) (fun _ => 0))
    (fun _ => ⟨rfl, fun h => SoraJobStatus.noConfusion h⟩)
    (fun _ => le_refl 0) 61 (by omega)

/-! ## Workflow lemmas shared by claims C3, C6, C7 -/

theorem hasFile_of_pos (fs : FS) (p : String) (h : 0 < fileSize fs p) :
    hasFile fs p = true := by
  unfold fileSize at h
  unfold hasFile
  cases hg : getFile fs p with
  | none => rw [hg] at h; exact absurd h (by simp)
  | some b => simp [hg]

theorem hasFile_getFile (fs : FS) (p : String) (h : hasFile fs p = true) :
    ∃ b, getFile fs p = some b := by
  unfold hasFile at h
  cases hg : getFile fs p with
  | none => rw [hg] at h; exact absurd h (by simp)
  | some b => exact ⟨b, rfl⟩

theorem getFile_writeMove (fs : FS) (gen tgt q : String) (b : Bytes)
    (h1 : q ≠ gen) (h2 : q ≠ tgt) :
    getFile (osReplace (setFile fs gen b) gen tgt) q = getFile fs q := by
  rw [getFile_osReplace_other _ _ _ _ h1 h2,
    getFile_setFile_ne _ _ _ _ (fun h => h1 h.symm)]

theorem getFile_writeMove_tgt (fs : FS) (gen tgt : String) (b : Bytes) :
    getFile (osReplace (setFile fs gen b) gen tgt) tgt = some b :=
  getFile_osReplace_dst _ _ _ _ (getFile_setFile_self _ _ _)

theorem fileSize_writeMove_tgt (fs : FS) (gen tgt : String) (b : Bytes) :
    fileSize (osReplace (setFile fs gen b) gen tgt) tgt = b.length := by
  simp [fileSize, getFile_writeMove_tgt]

theorem fileSize_setFile_ne (fs : FS) (p q : String) (b : Bytes) (h : p ≠ q) :
    fileSize (setFile fs p b) q = fileSize fs q := by
  simp [fileSize, getFile_setFile_ne _ _ _ _ h]

theorem stage_getFile_other (cond : Prop) [Decidable cond] (gen tgt q : String)
    (b : Bytes) (stg : Stage) (s : FS × List Ev) (h1 : q ≠ gen) (h2 : q ≠ tgt) :
    getFile (stageReuseOrMove cond gen tgt b stg s).1 q = getFile s.1 q := by
  unfold stageReuseOrMove
  split_ifs with h
  · rfl
  · exact getFile_writeMove s.1 gen tgt q b h1 h2

theorem stage_fileSize_other (cond : Prop) [Decidable cond] (gen tgt q : String)
    (b : Bytes) (stg : Stage) (s : FS × List Ev) (h1 : q ≠ gen) (h2 : q ≠ tgt) :
    fileSize (stageReuseOrMove cond gen tgt b stg s).1 q = fileSize s.1 q := by
  simp [fileSize, stage_getFile_other cond gen tgt q b stg s h1 h2]

theorem stage_tgt_pred (P : Nat → Prop) (cond : Prop) [Decidable cond]
    (gen tgt : String) (b : Bytes) (stg : Stage) (s : FS × List Ev)
    (hc : cond → P (fileSize s.1 tgt)) (hb : P b.length) :
    P (fileSize (stageReuseOrMove cond gen tgt b stg s).1 tgt) := by
  unfold stageReuseOrMove
  split_ifs with h
  · exact hc h
  · rw [fileSize_writeMove_tgt]
    exact hb

theorem stage_reuse (cond : Prop) [Decidable cond] (gen tgt : String)
    (b : Bytes) (stg : Stage) (s : FS × List Ev) (h : cond) :
    stageReuseOrMove cond gen tgt b stg s = s := by
  simp [stageReuseOrMove, if_pos h]

theorem stage_events (cond : Prop) [Decidable cond] (gen tgt : String)
    (b : Bytes) (stg : Stage) (s : FS × List Ev) :
    ∀ e ∈ (stageReuseOrMove cond gen tgt b stg s).2,
      e ∈ s.2 ∨ e = .invoke stg ∨ e = .writeDirect gen ∨ e = .rename gen tgt := by
  unfold stageReuseOrMove
  split_ifs with h
  · intro e he
    exact Or.inl he
  · intro e he
    rcases List.mem_append.mp he with he | he
    · exact Or.inl he
    · simp only [List.mem_cons, List.not_mem_nil, or_false] at he
      rcases he with h | h | h
      · exact Or.inr (Or.inl h)
      · exact Or.inr (Or.inr (Or.inl h))
      · exact Or.inr (Or.inr (Or.inr h))

/-- The four stage artifacts are present and valid for `pid`: parseable
content JSON, non-empty audio, video and final composite above 1024
bytes. -/
def ArtifactsValid (st : Settings) (pid : String) (fs : FS) : Prop :=
  (∃ b c, getFile fs (contentPath st pid) = some b ∧ parseTeaser b = some c) ∧
    0 < fileSize fs (audioPathOf st pid) ∧
    1024 < fileSize fs (videoPathOf st pid) ∧
    1024 < fileSize fs (finalPathOf st pid)

/-- Well-formedness of one run's environment: the providers return
artifacts satisfying the stage size predicates, and the scratch paths and
the five canonical per-project paths are pairwise distinct (in the source
the scratch names carry fresh `uuid4` segments and the canonical names
have distinct fixed basenames, so no two of these paths coincide). -/
structure RunEnvOK (st : Settings) (env : RunEnv) (pid : String) : Prop where
  audioSize : 0 < env.audioBytes.length
  videoSize : 1024 < env.videoBytes.length
  finalSize : 1024 < env.finalBytes.length
  cp_ap : contentPath st pid ≠ audioPathOf st pid
  cp_vp : contentPath st pid ≠ videoPathOf st pid
  cp_fp : contentPath st pid ≠ finalPathOf st pid
  cp_mp : contentPath st pid ≠ metadataPath st pid
  cp_ga : contentPath st pid ≠ env.genAudioPath
  cp_gv : contentPath st pid ≠ env.genVideoPath
  cp_gf : contentPath st pid ≠ env.genFinalPath
  ap_vp : audioPathOf st pid ≠ videoPathOf st pid
  ap_fp : audioPathOf st pid ≠ finalPathOf st pid
  ap_mp : audioPathOf st pid ≠ metadataPath st pid
  ap_ga : audioPathOf st pid ≠ env.genAudioPath
  ap_gv : audioPathOf st pid ≠ env.genVideoPath
  ap_gf : audioPathOf st pid ≠ env.genFinalPath
  vp_fp : videoPathOf st pid ≠ finalPathOf st pid
  vp_mp : videoPathOf st pid ≠ metadataPath st pid
  vp_ga : videoPathOf st pid ≠ env.genAudioPath
  vp_gv : videoPathOf st pid ≠ env.genVideoPath
  vp_gf : videoPathOf st pid ≠ env.genFinalPath
  fp_mp : finalPathOf st pid ≠ metadataPath st pid
  fp_ga : finalPathOf st pid ≠ env.genAudioPath
  fp_gv : finalPathOf st pid ≠ env.genVideoPath
  fp_gf : finalPathOf st pid ≠ env.genFinalPath

theorem contentStep_content (env : RunEnv) (cP : String) (fC : Bool) (fs : FS)
    (s1 : FS × List Ev) (h : contentStep env cP fC fs = some s1) :
    ∃ b c, getFile s1.1 cP = some b ∧ parseTeaser b = some c := by
  unfold contentStep at h
  split_ifs at h with hcond
  · cases hbind : (getFile fs cP).bind parseTeaser with
    | none => rw [hbind] at h; exact absurd h (by simp)
    | some c =>
      rw [hbind] at h
      obtain ⟨b, hb, hc⟩ := Option.bind_eq_some.mp hbind
      have hs1 : s1 = (fs, []) := by
        injection h with h'
        exact h'.symm
      exact ⟨b, c, by rw [hs1]; exact hb, hc⟩
  · have hs1 : s1 = (setFile fs cP (serializeTeaser env.teaser),
        [.invoke .content, .writeDirect cP]) := by
      injection h with h'
      exact h'.symm
    refine ⟨serializeTeaser env.teaser, env.teaser, ?_, parseTeaser_serializeTeaser _⟩
    rw [hs1]
    exact getFile_setFile_self _ _ _

theorem contentStep_reuse (env : RunEnv) (cP : String) (fs : FS)
    (h : ∃ b c, getFile fs cP = some b ∧ parseTeaser b = some c) :
    contentStep env cP false fs = some (fs, []) := by
  obtain ⟨b, c, hb, hc⟩ := h
  have hh : hasFile fs cP = true := by simp [hasFile, hb]
  have hbind : (getFile fs cP).bind parseTeaser = some c := by
    rw [hb]
    simpa using hc
  unfold contentStep
  rw [if_pos ⟨hh, by simp⟩, hbind]

theorem runMedia_valid (st : Settings) (env : RunEnv) (pid lang : String)
    (fC fA fV fF : Bool) (s1 : FS × List Ev)
    (hok : RunEnvOK st env pid)
    (hcontent : ∃ b c, getFile s1.1 (contentPath st pid) = some b ∧
      parseTeaser b = some c) :
    ArtifactsValid st pid (runMedia st env pid lang fC fA fV fF s1).1 := by
  obtain ⟨b, c, hb, hc⟩ := hcontent
  unfold runMedia
  simp only []
  set s2 := stageReuseOrMove
    (hasFile s1.1 (audioPathOf st pid) ∧ 0 < fileSize s1.1 (audioPathOf st pid) ∧ ¬ fA)
    env.genAudioPath (audioPathOf st pid) env.audioBytes .audio s1 with hs2
  set s3 := stageReuseOrMove
    (hasFile s2.1 (videoPathOf st pid) ∧ 1024 < fileSize s2.1 (videoPathOf st pid) ∧ ¬ fV)
    env.genVideoPath (videoPathOf st pid) env.videoBytes .video s2 with hs3
  set s4 := stageReuseOrMove
    (hasFile s3.1 (finalPathOf st pid) ∧ 1024 < fileSize s3.1 (finalPathOf st pid) ∧ ¬ fF)
    env.genFinalPath (finalPathOf st pid) env.finalBytes .compose s3 with hs4
  have hC2 : getFile s2.1 (contentPath st pid) = some b := by
    rw [hs2, stage_getFile_other _ _ _ _ _ _ _ hok.cp_ga hok.cp_ap]
    exact hb
  have hA2 : 0 < fileSize s2.1 (audioPathOf st pid) := by
    rw [hs2]
    exact stage_tgt_pred (0 < ·) _ _ _ _ _ _ (fun hcond => hcond.2.1) hok.audioSize
  have hC3 : getFile s3.1 (contentPath st pid) = some b := by
    rw [hs3, stage_getFile_other _ _ _ _ _ _ _ hok.cp_gv hok.cp_vp]
    exact hC2
  have hA3 : 0 < fileSize s3.1 (audioPathOf st pid) := by
    rw [hs3, stage_fileSize_other _ _ _ _ _ _ _ hok.ap_gv hok.ap_vp]
    exact hA2
  have hV3 : 1024 < fileSize s3.1 (videoPathOf st pid) := by
    rw [hs3]
    exact stage_tgt_pred (1024 < ·) _ _ _ _ _ _ (fun hcond => hcond.2.1) hok.videoSize
  have hC4 : getFile s4.1 (contentPath st pid) = some b := by
    rw [hs4, stage_getFile_other _ _ _ _ _ _ _ hok.cp_gf hok.cp_fp]
    exact hC3
  have hA4 : 0 < fileSize s4.1 (audioPathOf st pid) := by
    rw [hs4, stage_fileSize_other _ _ _ _ _ _ _ hok.ap_gf hok.ap_fp]
    exact hA3
  have hV4 : 1024 < fileSize s4.1 (videoPathOf st pid) := by
    rw [hs4, stage_fileSize_other _ _ _ _ _ _ _ hok.vp_gf hok.vp_fp]
    exact hV3
  have hF4 : 1024 < fileSize s4.1 (finalPathOf st pid) := by
    rw [hs4]
    exact stage_tgt_pred (1024 < ·) _ _ _ _ _ _ (fun hcond => hcond.2.1) hok.finalSize
  refine ⟨⟨b, c, ?_, hc⟩, ?_, ?_, ?_⟩
  · rw [getFile_setFile_ne _ _ _ _ (fun h => hok.cp_mp h.symm)]
    exact hC4
  · rw [fileSize_setFile_ne _ _ _ _ (fun h => hok.ap_mp h.symm)]
    exact hA4
  · rw [fileSize_setFile_ne _ _ _ _ (fun h => hok.vp_mp h.symm)]
    exact hV4
  · rw [fileSize_setFile_ne _ _ _ _ (fun h => hok.fp_mp h.symm)]
    exact hF4

theorem runMedia_noop (st : Settings) (env : RunEnv) (pid lang : String)
    (s1 : FS × List Ev)
    (ha : 0 < fileSize s1.1 (audioPathOf st pid))
    (hv : 1024 < fileSize s1.1 (videoPathOf st pid))
    (hf : 1024 < fileSize s1.1 (finalPathOf st pid)) :
    runMedia st env pid lang false false false false s1
      = (setFile s1.1 (metadataPath st pid) (serializeMeta lang false false false false),
         s1.2 ++ [.writeDirect (metadataPath st pid)],
         .completed (audioPathOf st pid) (videoPathOf st pid) (finalPathOf st pid)) := by
  simp only [runMedia]
  rw [stage_reuse (hasFile s1.1 (audioPathOf st pid) = true ∧
        0 < fileSize s1.1 (audioPathOf st pid) ∧ ¬ false = true)
      env.genAudioPath (audioPathOf st pid) env.audioBytes Stage.audio s1
      ⟨hasFile_of_pos _ _ ha, ha, by simp⟩]
  rw [stage_reuse (hasFile s1.1 (videoPathOf st pid) = true ∧
        1024 < fileSize s1.1 (videoPathOf st pid) ∧ ¬ false = true)
      env.genVideoPath (videoPathOf st pid) env.videoBytes Stage.video s1
      ⟨hasFile_of_pos _ _ (by omega), hv, by simp⟩]
  rw [stage_reuse (hasFile s1.1 (finalPathOf st pid) = true ∧
        1024 < fileSize s1.1 (finalPathOf st pid) ∧ ¬ false = true)
      env.genFinalPath (finalPathOf st pid) env.finalBytes Stage.compose s1
      ⟨hasFile_of_pos _ _ (by omega), hf, by simp⟩]

theorem runResumable_unfold (st : Settings) (env : RunEnv) (sc : PodcastScript)
    (lang : String) (fC fA fV fF : Bool) (fs : FS) :
    runResumable st env sc lang fC fA fV fF fs
      = match contentStep env (contentPath st (fingerprint sc.title sc.content)) fC fs with
        | none => (fs, [], .failed "content parse error")
        | some s1 => runMedia st env (fingerprint sc.title sc.content) lang fC fA fV fF s1 := by
  simp only [runResumable]

theorem runResumable_result (st : Settings) (env : RunEnv) (sc : PodcastScript)
    (lang : String) (fC fA fV fF : Bool) (fs : FS) :
    (runResumable st env sc lang fC fA fV fF fs).2.2 = .failed "content parse error" ∨
      (runResumable st env sc lang fC fA fV fF fs).2.2
        = .completed (audioPathOf st (fingerprint sc.title sc.content))
            (videoPathOf st (fingerprint sc.title sc.content))
            (finalPathOf st (fingerprint sc.title sc.content)) := by
  simp only [runResumable]
  cases hs : contentStep env (contentPath st (fingerprint sc.title sc.content)) fC fs with
  | none => exact Or.inl rfl
  | some s1 =>
    right
    simp only [runMedia]

theorem runResumable_valid_after (st : Settings) (env : RunEnv) (sc : PodcastScript)
    (lang : String) (fC fA fV fF : Bool) (fs : FS)
    (hok : RunEnvOK st env (fingerprint sc.title sc.content))
    (hdone : IsCompleted (runResumable st env sc lang fC fA fV fF fs).2.2) :
    ArtifactsValid st (fingerprint sc.title sc.content)
      (runResumable st env sc lang fC fA fV fF fs).1 := by
  simp only [runResumable] at hdone ⊢
  cases hs : contentStep env (contentPath st (fingerprint sc.title sc.content)) fC fs with
  | none =>
    rw [hs] at hdone
    exact absurd hdone (by simp [IsCompleted])
  | some s1 =>
    exact runMedia_valid st env _ lang fC fA fV fF s1 hok
      (contentStep_content env _ fC fs s1 hs)

/-! ## Claim C3: a re-run with no force flags is a provider-free no-op -/

/-- C3: after a completed resumable run, running again with the same
title and source text and all force flags false invokes no provider,
leaves the four persisted stage artifacts byte-identical, returns the
same canonical paths (which are the per-fingerprint
`teaser_content.json` / `audio.*` / `video.*` / `final.*` paths), and the
extraction step alone likewise reuses the persisted content JSON
untouched. -/
theorem rerun_no_provider_same_paths (st : Settings) (env : RunEnv)
    (sc : PodcastScript) (lang : String) (fs0 : FS)
    (hok : RunEnvOK st env (fingerprint sc.title sc.content))
    (hdone : IsCompleted (runResumable st env sc lang false false false false fs0).2.2) :
    (runResumable st env sc lang false false false false fs0).2.2
      = .completed (audioPathOf st (fingerprint sc.title sc.content))
          (videoPathOf st (fingerprint sc.title sc.content))
          (finalPathOf st (fingerprint sc.title sc.content)) ∧
    (runResumable st env sc lang false false false false
        (runResumable st env sc lang false false false false fs0).1).2.2
      = (runResumable st env sc lang false false false false fs0).2.2 ∧
    (∀ stg, Ev.invoke stg ∉ (runResumable st env sc lang false false false false
        (runResumable st env sc lang false false false false fs0).1).2.1) ∧
    (∀ p, p = contentPath st (fingerprint sc.title sc.content) ∨
        p = audioPathOf st (fingerprint sc.title sc.content) ∨
        p = videoPathOf st (fingerprint sc.title sc.content) ∨
        p = finalPathOf st (fingerprint sc.title sc.content) →
      getFile (runResumable st env sc lang false false false false
          (runResumable st env sc lang false false false false fs0).1).1 p
        = getFile (runResumable st env sc lang false false false false fs0).1 p) ∧
    stepExtract st env sc false (runResumable st env sc lang false false false false fs0).1
      = ((runResumable st env sc lang false false false false fs0).1, [],
         (fingerprint sc.title sc.content,
          contentPath st (fingerprint sc.title sc.content))) := by
  have hvalid := runResumable_valid_after st env sc lang false false false false fs0 hok hdone
  obtain ⟨hcont, ha, hv, hf⟩ := hvalid
  have hr1 : (runResumable st env sc lang false false false false fs0).2.2
      = .completed (audioPathOf st (fingerprint sc.title sc.content))
          (videoPathOf st (fingerprint sc.title sc.content))
          (finalPathOf st (fingerprint sc.title sc.content)) := by
    rcases runResumable_result st env sc lang false false false false fs0 with h | h
    · rw [h] at hdone
      exact absurd hdone (by simp [IsCompleted])
    · exact h
  have hrun2 : runResumable st env sc lang false false false false
      (runResumable st env sc lang false false false false fs0).1
      = (setFile (runResumable st env sc lang false false false false fs0).1
          (metadataPath st (fingerprint sc.title sc.content))
          (serializeMeta lang false false false false),
         [] ++ [.writeDirect (metadataPath st (fingerprint sc.title sc.content))],
         .completed (audioPathOf st (fingerprint sc.title sc.content))
           (videoPathOf st (fingerprint sc.title sc.content))
           (finalPathOf st (fingerprint sc.title sc.content))) := by
    rw [runResumable_unfold, contentStep_reuse env _ _ hcont]
    exact runMedia_noop st env _ lang
      ((runResumable st env sc lang false false false false fs0).1, []) ha hv hf
  refine ⟨hr1, ?_, ?_, ?_, ?_⟩
  · rw [hrun2, hr1]
  · intro stg
    rw [hrun2]
    simp
  · intro p hp
    rw [hrun2]
    simp only []
    have hne : metadataPath st (fingerprint sc.title sc.content) ≠ p := by
      rcases hp with h | h | h | h <;> rw [h]
      · exact fun hh => hok.cp_mp hh.symm
      · exact fun hh => hok.ap_mp hh.symm
      · exact fun hh => hok.vp_mp hh.symm
      · exact fun hh => hok.fp_mp hh.symm
    exact getFile_setFile_ne _ _ _ _ hne
  · obtain ⟨b, c, hb, hc⟩ := hcont
    unfold stepExtract
    rw [if_pos ⟨by simp [hasFile, hb], by simp⟩]

/-! ## Concrete fixtures for the closed witnesses and counterexamples -/

def sampleSettings : Settings := ⟨"outputs", "mp3", "mp4"⟩

def sampleTeaser : TeaserContent :=
  { headline := "Big News"
    script := "Listen now!"
    key_points := ["one", "two"]
    visual_description := "city lights"
    duration_seconds := 15 }

def sampleScript : PodcastScript := ⟨"Ep1", "hello world"⟩

def samplePid : String := fingerprint sampleScript.title sampleScript.content

def sampleEnv : RunEnv :=
  { teaser := sampleTeaser
    genAudioPath := "outputs/teaser_audio_scratch.mp3"
    audioBytes := [1]
    genVideoPath := "outputs/teaser_video_scratch.mp4"
    videoBytes := List.replicate 1025 2
    genFinalPath := "outputs/teaser_final_scratch.mp4"
    finalBytes := List.replicate 1025 3 }

theorem samplePid_eq : samplePid = "7254caa0911f" := by decide

theorem sampleEnvOK : RunEnvOK sampleSettings sampleEnv samplePid := by
  refine ⟨?_, ?_, ?_, ?_, ?_, ?_, ?_, ?_, ?_, ?_, ?_, ?_, ?_, ?_, ?_, ?_, ?_,
    ?_, ?_, ?_, ?_, ?_, ?_, ?_, ?_⟩ <;>
    first
      | (rw [samplePid_eq]; decide)
      | simp [sampleEnv, List.length_replicate]

/-- C3 (witness): `rerun_no_provider_same_paths` on the concrete sample
run from an empty file system: the first run completes, and the second
run invokes no provider. -/
theorem rerun_no_provider_same_paths_witness :
    RunEnvOK sampleSettings sampleEnv
      (fingerprint sampleScript.title sampleScript.content) ∧
    IsCompleted (runResumable sampleSettings sampleEnv sampleScript "en-US"
      false false false false []).2.2 ∧
    Ev.invoke Stage.audio ∉ (runResumable sampleSettings sampleEnv sampleScript "en-US"
      false false false false
      (runResumable sampleSettings sampleEnv sampleScript "en-US"
        false false false false []).1).2.1 ∧
    Ev.invoke Stage.compose ∉ (runResumable sampleSettings sampleEnv sampleScript "en-US"
      false false false false
      (runResumable sampleSettings sampleEnv sampleScript "en-US"
        false false false false []).1).2.1 := by
  have hok : RunEnvOK sampleSettings sampleEnv
      (fingerprint sampleScript.title sampleScript.content) := sampleEnvOK
  have hdone : IsCompleted (runResumable sampleSettings sampleEnv sampleScript "en-US"
      false false false false []).2.2 := by decide
  exact ⟨hok, hdone,
    (rerun_no_provider_same_paths sampleSettings sampleEnv sampleScript "en-US" []
      hok hdone).2.2.1 Stage.audio,
    (rerun_no_provider_same_paths sampleSettings sampleEnv sampleScript "en-US" []
      hok hdone).2.2.1 Stage.compose⟩

/-! ## Claim C7: which writes are atomic (write-to-temp then rename) -/

theorem contentStep_events (env : RunEnv) (cP : String) (fC : Bool) (fs : FS)
    (s1 : FS × List Ev) (h : contentStep env cP fC fs = some s1) :
    ∀ e ∈ s1.2, e = .invoke .content ∨ e = .writeDirect cP := by
  unfold contentStep at h
  split_ifs at h with hcond
  · cases hbind : (getFile fs cP).bind parseTeaser with
    | none => rw [hbind] at h; exact absurd h (by simp)
    | some c =>
      rw [hbind] at h
      have hs1 : s1 = (fs, []) := by
        injection h with h'
        exact h'.symm
      rw [hs1]
      intro e he
      exact absurd he (List.not_mem_nil e)
  · have hs1 : s1 = (setFile fs cP (serializeTeaser env.teaser),
        [.invoke .content, .writeDirect cP]) := by
      injection h with h'
      exact h'.symm
    rw [hs1]
    intro e he
    simpa using he

theorem runMedia_events (st : Settings) (env : RunEnv) (pid lang : String)
    (fC fA fV fF : Bool) (s1 : FS × List Ev) :
    ∀ e ∈ (runMedia st env pid lang fC fA fV fF s1).2.1,
      e ∈ s1.2 ∨
      e = .invoke .audio ∨ e = .writeDirect env.genAudioPath ∨
        e = .rename env.genAudioPath (audioPathOf st pid) ∨
      e = .invoke .video ∨ e = .writeDirect env.genVideoPath ∨
        e = .rename env.genVideoPath (videoPathOf st pid) ∨
      e = .invoke .compose ∨ e = .writeDirect env.genFinalPath ∨
        e = .rename env.genFinalPath (finalPathOf st pid) ∨
      e = .writeDirect (metadataPath st pid) := by
  intro e he
  simp only [runMedia] at he
  rcases List.mem_append.mp he with he | he
  · rcases stage_events _ _ _ _ _ _ e he with he | he | he | he
    · rcases stage_events _ _ _ _ _ _ e he with he | he | he | he
      · rcases stage_events _ _ _ _ _ _ e he with he | he | he | he
        · exact Or.inl he
        · exact Or.inr (Or.inl he)
        · exact Or.inr (Or.inr (Or.inl he))
        · exact Or.inr (Or.inr (Or.inr (Or.inl he)))
      · exact Or.inr (Or.inr (Or.inr (Or.inr (Or.inl he))))
      · exact Or.inr (Or.inr (Or.inr (Or.inr (Or.inr (Or.inl he)))))
      · exact Or.inr (Or.inr (Or.inr (Or.inr (Or.inr (Or.inr (Or.inl he))))))
    · exact Or.inr (Or.inr (Or.inr (Or.inr (Or.inr (Or.inr (Or.inr (Or.inl he)))))))
    · exact Or.inr (Or.inr (Or.inr (Or.inr (Or.inr (Or.inr (Or.inr (Or.inr (Or.inl he))))))))
    · exact Or.inr (Or.inr (Or.inr (Or.inr (Or.inr (Or.inr (Or.inr (Or.inr (Or.inr (Or.inl he)))))))))
  · rw [List.mem_singleton.mp he]
    exact Or.inr (Or.inr (Or.inr (Or.inr (Or.inr (Or.inr (Or.inr (Or.inr (Or.inr
      (Or.inr rfl)))))))))

theorem runResumable_events (st : Settings) (env : RunEnv) (sc : PodcastScript)
    (lang : String) (fC fA fV fF : Bool) (fs : FS) :
    ∀ e ∈ (runResumable st env sc lang fC fA fV fF fs).2.1,
      e = .invoke .content ∨
        e = .writeDirect (contentPath st (fingerprint sc.title sc.content)) ∨
      e = .invoke .audio ∨ e = .writeDirect env.genAudioPath ∨
        e = .rename env.genAudioPath
          (audioPathOf st (fingerprint sc.title sc.content)) ∨
      e = .invoke .video ∨ e = .writeDirect env.genVideoPath ∨
        e = .rename env.genVideoPath
          (videoPathOf st (fingerprint sc.title sc.content)) ∨
      e = .invoke .compose ∨ e = .writeDirect env.genFinalPath ∨
        e = .rename env.genFinalPath
          (finalPathOf st (fingerprint sc.title sc.content)) ∨
      e = .writeDirect (metadataPath st (fingerprint sc.title sc.content)) := by
  intro e he
  rw [runResumable_unfold] at he
  cases hs : contentStep env (contentPath st (fingerprint sc.title sc.content)) fC fs with
  | none =>
    rw [hs] at he
    exact absurd he (List.not_mem_nil e)
  | some s1 =>
    rw [hs] at he
    rcases runMedia_events st env _ lang fC fA fV fF s1 e he with
      he | he | he | he | he | he | he | he | he | he | he
    · rcases contentStep_events env _ fC fs s1 hs e he with h | h
      · exact Or.inl h
      · exact Or.inr (Or.inl h)
    · exact Or.inr (Or.inr (Or.inl he))
    · exact Or.inr (Or.inr (Or.inr (Or.inl he)))
    · exact Or.inr (Or.inr (Or.inr (Or.inr (Or.inl he))))
    · exact Or.inr (Or.inr (Or.inr (Or.inr (Or.inr (Or.inl he)))))
    · exact Or.inr (Or.inr (Or.inr (Or.inr (Or.inr (Or.inr (Or.inl he))))))
    · exact Or.inr (Or.inr (Or.inr (Or.inr (Or.inr (Or.inr (Or.inr (Or.inl he)))))))
    · exact Or.inr (Or.inr (Or.inr (Or.inr (Or.inr (Or.inr (Or.inr (Or.inr (Or.inl he))))))))
    · exact Or.inr (Or.inr (Or.inr (Or.inr (Or.inr (Or.inr (Or.inr (Or.inr (Or.inr
        (Or.inl he)))))))))
    · exact Or.inr (Or.inr (Or.inr (Or.inr (Or.inr (Or.inr (Or.inr (Or.inr (Or.inr
        (Or.inr (Or.inl he))))))))))
    · exact Or.inr (Or.inr (Or.inr (Or.inr (Or.inr (Or.inr (Or.inr (Or.inr (Or.inr
        (Or.inr (Or.inr he))))))))))

theorem dlLoop_events (env : DlEnv) (out : String) :
    ∀ (fuel att : Nat) (el : ℚ) (fs : FS) (evs : List Ev),
      (∀ e ∈ (dlLoop env out fuel att el fs evs).2.1,
        e ∈ evs ∨ e = .writeDirect (out ++ ".part") ∨ e = .remove (out ++ ".part") ∨
          e = .rename (out ++ ".part") out ∨ e = .writeDirect out) ∧
      ((dlLoop env out fuel att el fs evs).2.2 = true →
        Ev.writeDirect out ∈ (dlLoop env out fuel att el fs evs).2.1 →
        Ev.writeDirect out ∈ evs) := by
  intro fuel
  induction fuel with
  | zero =>
    intro att el fs evs
    constructor
    · intro e he
      simp only [dlLoop, dlFallback] at he
      rcases List.mem_append.mp he with he | he
      · exact Or.inl he
      · rw [List.mem_singleton.mp he]
        exact Or.inr (Or.inr (Or.inr (Or.inr rfl)))
    · intro h
      simp [dlLoop, dlFallback] at h
  | succ fuel ih =>
    intro att el fs evs
    by_cases hcond : att < env.maxAttempts ∧ el < env.maxTotalSeconds
    · cases hout : attemptOutcome (env.resp att) with
      | success b =>
        have hstep : (dlLoop env out (fuel+1) att el fs evs).2
            = (evs ++ [.writeDirect (out ++ ".part"), .rename (out ++ ".part") out],
               true) := by
          simp only [dlLoop, if_pos hcond, hout]
        rw [hstep]
        constructor
        · intro e he
          rcases List.mem_append.mp he with he | he
          · exact Or.inl he
          · simp only [List.mem_cons, List.not_mem_nil, or_false] at he
            rcases he with h | h
            · exact Or.inr (Or.inl h)
            · exact Or.inr (Or.inr (Or.inr (Or.inl h)))
        · intro _ hmem
          rcases List.mem_append.mp hmem with hmem | hmem
          · exact hmem
          · simp only [List.mem_cons, List.not_mem_nil, or_false] at hmem
            rcases hmem with h | h
            · exact absurd (by injection h with h'; exact h'.symm) (append_part_ne out)
            · exact absurd h (by simp)
      | retryDiscard =>
        have hstep : dlLoop env out (fuel+1) att el fs evs
            = dlLoop env out fuel (att+1) (el + env.dur att)
                (removeFile (setFile fs (out ++ ".part") (env.resp att).body)
                  (out ++ ".part"))
                (evs ++ [.writeDirect (out ++ ".part"), .remove (out ++ ".part")]) := by
          simp only [dlLoop, if_pos hcond, hout]
        rw [hstep]
        constructor
        · intro e he
          rcases (ih _ _ _ _).1 e he with h | h
          · rcases List.mem_append.mp h with h | h
            · exact Or.inl h
            · simp only [List.mem_cons, List.not_mem_nil, or_false] at h
              rcases h with h | h
              · exact Or.inr (Or.inl h)
              · exact Or.inr (Or.inr (Or.inl h))
          · exact Or.inr h
        · intro hT hmem
          have := (ih _ _ _ _).2 hT hmem
          rcases List.mem_append.mp this with h | h
          · exact h
          · simp only [List.mem_cons, List.not_mem_nil, or_false] at h
            rcases h with h | h
            · exact absurd (by injection h with h'; exact h'.symm) (append_part_ne out)
            · exact absurd h (by simp)
      | retrySkip =>
        have hstep : dlLoop env out (fuel+1) att el fs evs
            = dlLoop env out fuel (att+1) (el + env.dur att) fs evs := by
          simp only [dlLoop, if_pos hcond, hout]
        rw [hstep]
        exact ih _ _ _ _
    · have hstep : dlLoop env out (fuel+1) att el fs evs = dlFallback env out fs evs := by
        simp only [dlLoop, if_neg hcond]
      rw [hstep]
      constructor
      · intro e he
        simp only [dlFallback] at he
        rcases List.mem_append.mp he with he | he
        · exact Or.inl he
        · rw [List.mem_singleton.mp he]
          exact Or.inr (Or.inr (Or.inr (Or.inr rfl)))
      · intro h
        simp [dlFallback] at h

/-- C7 (counterexample): in a concrete run the content artifact is
written directly at its canonical path (`content_json.write_text`), with
no rename ever targeting that path, refuting "every write of a stage
artifact goes through a temporary path plus rename". -/
theorem content_artifact_written_directly :
    Ev.writeDirect (contentPath sampleSettings samplePid)
      ∈ (runResumable sampleSettings sampleEnv sampleScript "en-US"
          false false false false []).2.1 ∧
    (runResumable sampleSettings sampleEnv sampleScript "en-US"
        false false false false []).2.1.all
      (fun e => match e with
        | Ev.rename _ d => decide (d ≠ contentPath sampleSettings samplePid)
        | _ => true) = true := by
  constructor
  · decide
  · decide

/-- C7 (amended): the audio, video and final-composite artifacts (and the
Sora download inside the video agent) are placed at their canonical paths
atomically — produced at a scratch path and moved there by rename, and in
the download loop only the complete `.part` file is ever renamed onto the
output, a successful download never writing the output path directly; the
content JSON and `metadata.json`, however, are written directly to their
canonical paths (the counterexample), so the claim's "every stage
artifact" is too strong. -/
theorem stage_artifacts_write_then_rename (st : Settings) (env : RunEnv)
    (sc : PodcastScript) (lang : String) (fC fA fV fF : Bool) (fs : FS)
    (hok : RunEnvOK st env (fingerprint sc.title sc.content)) :
    (∀ p, Ev.writeDirect p ∈ (runResumable st env sc lang fC fA fV fF fs).2.1 →
      p ≠ audioPathOf st (fingerprint sc.title sc.content) ∧
      p ≠ videoPathOf st (fingerprint sc.title sc.content) ∧
      p ≠ finalPathOf st (fingerprint sc.title sc.content)) ∧
    (∀ a b, Ev.rename a b ∈ (runResumable st env sc lang fC fA fV fF fs).2.1 →
      (a = env.genAudioPath ∧ b = audioPathOf st (fingerprint sc.title sc.content)) ∨
      (a = env.genVideoPath ∧ b = videoPathOf st (fingerprint sc.title sc.content)) ∨
      (a = env.genFinalPath ∧ b = finalPathOf st (fingerprint sc.title sc.content))) ∧
    (∀ (denv : DlEnv) (out : String) (dfs : FS),
      (∀ a b, Ev.rename a b ∈ (soraDownload denv out dfs).2.1 →
        a = out ++ ".part" ∧ b = out) ∧
      ((soraDownload denv out dfs).2.2 = true →
        Ev.writeDirect out ∉ (soraDownload denv out dfs).2.1)) := by
  refine ⟨?_, ?_, ?_⟩
  · intro p hp
    rcases runResumable_events st env sc lang fC fA fV fF fs _ hp with
      h | h | h | h | h | h | h | h | h | h | h | h
    all_goals first
      | exact Ev.noConfusion h
      | (injection h with h'
         subst h'
         exact ⟨fun hh => hok.cp_ap hh, fun hh => hok.cp_vp hh, fun hh => hok.cp_fp hh⟩)
      | (injection h with h'
         subst h'
         refine ⟨?_, ?_, ?_⟩ <;> intro hh
         · exact hok.ap_ga hh.symm
         · exact hok.vp_ga hh.symm
         · exact hok.fp_ga hh.symm)
      | (injection h with h'
         subst h'
         refine ⟨?_, ?_, ?_⟩ <;> intro hh
         · exact hok.ap_gv hh.symm
         · exact hok.vp_gv hh.symm
         · exact hok.fp_gv hh.symm)
      | (injection h with h'
         subst h'
         refine ⟨?_, ?_, ?_⟩ <;> intro hh
         · exact hok.ap_gf hh.symm
         · exact hok.vp_gf hh.symm
         · exact hok.fp_gf hh.symm)
      | (injection h with h'
         subst h'
         refine ⟨?_, ?_, ?_⟩ <;> intro hh
         · exact hok.ap_mp hh.symm
         · exact hok.vp_mp hh.symm
         · exact hok.fp_mp hh.symm)
  · intro a b hab
    rcases runResumable_events st env sc lang fC fA fV fF fs _ hab with
      h | h | h | h | h | h | h | h | h | h | h | h
    all_goals first
      | exact Ev.noConfusion h
      | (injection h with h1 h2
         exact Or.inl ⟨h1, h2⟩)
      | (injection h with h1 h2
         exact Or.inr (Or.inl ⟨h1, h2⟩))
      | (injection h with h1 h2
         exact Or.inr (Or.inr ⟨h1, h2⟩))
  · intro denv out dfs
    constructor
    · intro a b hab
      rcases (dlLoop_events denv out denv.maxAttempts 0 0 dfs []).1 _ hab with
        h | h | h | h | h
      · exact absurd h (List.not_mem_nil _)
      · exact Ev.noConfusion h
      · exact Ev.noConfusion h
      · injection h with h1 h2
        exact ⟨h1, h2⟩
      · exact Ev.noConfusion h
    · intro hT hmem
      have := (dlLoop_events denv out denv.maxAttempts 0 0 dfs []).2 hT hmem
      exact absurd this (List.not_mem_nil _)

/-- C7 (witness): `stage_artifacts_write_then_rename` applied on the
concrete sample run to its audio scratch write, which indeed targets
none of the three canonical media paths. -/
theorem stage_artifacts_write_then_rename_witness :
    sampleEnv.genAudioPath ≠ audioPathOf sampleSettings
        (fingerprint sampleScript.title sampleScript.content) ∧
      sampleEnv.genAudioPath ≠ videoPathOf sampleSettings
        (fingerprint sampleScript.title sampleScript.content) ∧
      sampleEnv.genAudioPath ≠ finalPathOf sampleSettings
        (fingerprint sampleScript.title sampleScript.content) :=
  (stage_artifacts_write_then_rename sampleSettings sampleEnv sampleScript "en-US"
    false false false false [] sampleEnvOK).1 sampleEnv.genAudioPath (by decide)

/-! ## Claim C6: stage N runs only after stage N-1's artifact is ensured -/

theorem stepExtract_gen (st : Settings) (env : RunEnv) (sc : PodcastScript) (fs : FS)
    (h : ¬ hasFile fs (contentPath st (fingerprint sc.title sc.content)) = true) :
    stepExtract st env sc false fs
      = (setFile fs (contentPath st (fingerprint sc.title sc.content))
          (serializeTeaser env.teaser),
         [.invoke .content,
          .writeDirect (contentPath st (fingerprint sc.title sc.content))],
         (fingerprint sc.title sc.content,
          contentPath st (fingerprint sc.title sc.content))) := by
  simp only [stepExtract]
  rw [if_neg (fun hc => h hc.1)]

/-- The ensure-content preamble always leaves the content artifact
present: either it already existed, or `step_extract` has just written
it. -/
theorem ensureContent_has (st : Settings) (env : RunEnv) (sc : PodcastScript) (fs : FS) :
    hasFile (ensureContent st env sc fs).1
      (contentPath st (fingerprint sc.title sc.content)) = true := by
  unfold ensureContent
  split_ifs with h
  · exact h
  · rw [stepExtract_gen st env sc fs h]
    simp [hasFile, getFile_setFile_self]

theorem ensureContent_other (st : Settings) (env : RunEnv) (sc : PodcastScript)
    (fs : FS) (q : String)
    (hq : q ≠ contentPath st (fingerprint sc.title sc.content)) :
    getFile (ensureContent st env sc fs).1 q = getFile fs q := by
  unfold ensureContent
  split_ifs with h
  · rfl
  · rw [stepExtract_gen st env sc fs h]
    exact getFile_setFile_ne _ _ _ _ (fun h' => hq h'.symm)

theorem ensureContent_events (st : Settings) (env : RunEnv) (sc : PodcastScript)
    (fs : FS) :
    ∀ e ∈ (ensureContent st env sc fs).2,
      e = .invoke .content ∨
        e = .writeDirect (contentPath st (fingerprint sc.title sc.content)) := by
  unfold ensureContent
  split_ifs with h
  · intro e he
    exact absurd he (List.not_mem_nil e)
  · rw [stepExtract_gen st env sc fs h]
    intro e he
    simpa using he

theorem stepTTS_ok_size (st : Settings) (env : RunEnv) (sc : PodcastScript)
    (force : Bool) (fs : FS) (hA : 0 < env.audioBytes.length)
    (x : String × String) (hok : (stepTTS st env sc force fs).2.2 = .ok x) :
    0 < fileSize (stepTTS st env sc force fs).1
      (audioPathOf st (fingerprint sc.title sc.content)) := by
  simp only [stepTTS] at hok ⊢
  split_ifs at hok ⊢ with h1 h2
  · exact h2.2.1
  · rw [fileSize_writeMove_tgt]
    exact hA

theorem stepVideo_ok_size (st : Settings) (env : RunEnv) (sc : PodcastScript)
    (force : Bool) (fs : FS) (hV : 1024 < env.videoBytes.length)
    (x : String × String) (hok : (stepVideo st env sc force fs).2.2 = .ok x) :
    1024 < fileSize (stepVideo st env sc force fs).1
      (videoPathOf st (fingerprint sc.title sc.content)) := by
  simp only [stepVideo] at hok ⊢
  split_ifs at hok ⊢ with h1 h2
  · exact h2.2.1
  · rw [fileSize_writeMove_tgt]
    exact hV

theorem stepVideo_other (st : Settings) (env : RunEnv) (sc : PodcastScript)
    (force : Bool) (fs : FS) (q : String)
    (h1 : q ≠ contentPath st (fingerprint sc.title sc.content))
    (h2 : q ≠ env.genVideoPath)
    (h3 : q ≠ videoPathOf st (fingerprint sc.title sc.content)) :
    getFile (stepVideo st env sc force fs).1 q = getFile fs q := by
  have hens := ensureContent_other st env sc fs q h1
  simp only [stepVideo]
  split_ifs with ha hb
  · exact hens
  · rw [getFile_writeMove _ _ _ _ _ h2 h3]
    exact hens
  · exact hens

theorem stepTTS_events (st : Settings) (env : RunEnv) (sc : PodcastScript)
    (force : Bool) (fs : FS) :
    ∀ e ∈ (stepTTS st env sc force fs).2.1,
      e = .invoke .content ∨
        e = .writeDirect (contentPath st (fingerprint sc.title sc.content)) ∨
      e = .invoke .audio ∨ e = .writeDirect env.genAudioPath ∨
        e = .rename env.genAudioPath
          (audioPathOf st (fingerprint sc.title sc.content)) := by
  simp only [stepTTS]
  split_ifs with h1 h2 <;> intro e he
  · rcases ensureContent_events st env sc fs e he with h | h
    · exact Or.inl h
    · exact Or.inr (Or.inl h)
  · rcases List.mem_append.mp he with he | he
    · rcases ensureContent_events st env sc fs e he with h | h
      · exact Or.inl h
      · exact Or.inr (Or.inl h)
    · simp only [List.mem_cons, List.not_mem_nil, or_false] at he
      rcases he with h | h | h
      · exact Or.inr (Or.inr (Or.inl h))
      · exact Or.inr (Or.inr (Or.inr (Or.inl h)))
      · exact Or.inr (Or.inr (Or.inr (Or.inr h)))
  · rcases ensureContent_events st env sc fs e he with h | h
    · exact Or.inl h
    · exact Or.inr (Or.inl h)

theorem stepVideo_events (st : Settings) (env : RunEnv) (sc : PodcastScript)
    (force : Bool) (fs : FS) :
    ∀ e ∈ (stepVideo st env sc force fs).2.1,
      e = .invoke .content ∨
        e = .writeDirect (contentPath st (fingerprint sc.title sc.content)) ∨
      e = .invoke .video ∨ e = .writeDirect env.genVideoPath ∨
        e = .rename env.genVideoPath
          (videoPathOf st (fingerprint sc.title sc.content)) := by
  simp only [stepVideo]
  split_ifs with h1 h2 <;> intro e he
  · rcases ensureContent_events st env sc fs e he with h | h
    · exact Or.inl h
    · exact Or.inr (Or.inl h)
  · rcases List.mem_append.mp he with he | he
    · rcases ensureContent_events st env sc fs e he with h | h
      · exact Or.inl h
      · exact Or.inr (Or.inl h)
    · simp only [List.mem_cons, List.not_mem_nil, or_false] at he
      rcases he with h | h | h
      · exact Or.inr (Or.inr (Or.inl h))
      · exact Or.inr (Or.inr (Or.inr (Or.inl h)))
      · exact Or.inr (Or.inr (Or.inr (Or.inr h)))
  · rcases ensureContent_events st env sc fs e he with h | h
    · exact Or.inl h
    · exact Or.inr (Or.inl h)

/-- Audio prerequisite phase: on success the audio artifact is
non-empty. -/
theorem audioPhase_ok_size (st : Settings) (env : RunEnv) (sc : PodcastScript)
    (fs : FS) (hA : 0 < env.audioBytes.length) (s1 : FS × List Ev)
    (h : audioPhase st env sc fs = .ok s1) :
    0 < fileSize s1.1 (audioPathOf st (fingerprint sc.title sc.content)) := by
  simp only [audioPhase] at h
  split_ifs at h with hcond
  · have hs1 : s1 = (fs, []) := by
      injection h with h'
      exact h'.symm
    rw [hs1]
    exact Nat.pos_of_ne_zero hcond.2
  · rcases hstep : stepTTS st env sc false fs with ⟨fsA, evsA, resA⟩
    rw [hstep] at h
    cases resA with
    | error e => exact Except.noConfusion h
    | ok x =>
      have hs1 : s1 = (fsA, evsA) := by
        injection h with h'
        exact h'.symm
      have hsz := stepTTS_ok_size st env sc false fs hA x (by rw [hstep])
      rw [hstep] at hsz
      rw [hs1]
      exact hsz

/-- Video prerequisite phase: on success the video artifact has at least
1024 bytes (only `≥`: the phase's own threshold) and the audio artifact
is untouched. -/
theorem videoPhase_ok (st : Settings) (env : RunEnv) (sc : PodcastScript)
    (s1 : FS × List Ev) (hok : RunEnvOK st env (fingerprint sc.title sc.content))
    (hV : 1024 < env.videoBytes.length) (s2 : FS × List Ev)
    (h : videoPhase st env sc s1 = .ok s2) :
    1024 ≤ fileSize s2.1 (videoPathOf st (fingerprint sc.title sc.content)) ∧
      fileSize s2.1 (audioPathOf st (fingerprint sc.title sc.content))
        = fileSize s1.1 (audioPathOf st (fingerprint sc.title sc.content)) := by
  simp only [videoPhase] at h
  split_ifs at h with hcond
  · have hs2 : s2 = s1 := by
      injection h with h'
      exact h'.symm
    rw [hs2]
    exact ⟨hcond.2, rfl⟩
  · rcases hstep : stepVideo st env sc false s1.1 with ⟨fsV, evsV, resV⟩
    rw [hstep] at h
    cases resV with
    | error e => exact Except.noConfusion h
    | ok x =>
      have hs2 : s2 = (fsV, s1.2 ++ evsV) := by
        injection h with h'
        exact h'.symm
      have hsz := stepVideo_ok_size st env sc false s1.1 hV x (by rw [hstep])
      rw [hstep] at hsz
      have hpres := stepVideo_other st env sc false s1.1
        (audioPathOf st (fingerprint sc.title sc.content))
        (fun hh => hok.cp_ap hh.symm) hok.ap_gv hok.ap_vp
      rw [hstep] at hpres
      rw [hs2]
      exact ⟨le_of_lt hsz, by simp [fileSize, hpres]⟩

/-- C6 core fact: when the prerequisite phase of `step_compose` hands an
ensured state to the final stage, the audio artifact is non-empty and the
video artifact holds at least 1024 bytes. -/
theorem composeEnsure_sizes (st : Settings) (env : RunEnv) (sc : PodcastScript)
    (fs : FS) (hok : RunEnvOK st env (fingerprint sc.title sc.content))
    (s1 : FS × List Ev) (h : composeEnsure st env sc fs = .ok s1) :
    0 < fileSize s1.1 (audioPathOf st (fingerprint sc.title sc.content)) ∧
      1024 ≤ fileSize s1.1 (videoPathOf st (fingerprint sc.title sc.content)) := by
  unfold composeEnsure at h
  rcases hap : audioPhase st env sc fs with e | sA
  · rw [hap] at h
    exact Except.noConfusion h
  · rw [hap] at h
    have hA := audioPhase_ok_size st env sc fs hok.audioSize sA hap
    have hv := videoPhase_ok st env sc sA hok hok.videoSize s1 h
    exact ⟨by rw [hv.2]; exact hA, hv.1⟩

/-- The compose stage is invoked only when the prerequisite phase
succeeded. -/
theorem stepCompose_invoke_needs_ensure (st : Settings) (env : RunEnv)
    (sc : PodcastScript) (force : Bool) (fs : FS)
    (h : Ev.invoke Stage.compose ∈ (stepCompose st env sc force fs).2.1) :
    ∃ s1, composeEnsure st env sc fs = .ok s1 := by
  simp only [stepCompose] at h
  rcases hce : composeEnsure st env sc fs with e3 | s1
  · exfalso
    rw [hce] at h
    -- the error trace comes from the prerequisite phases only
    obtain ⟨fsE, evsE, msgE⟩ := e3
    have hno : Ev.invoke Stage.compose ∉ evsE := by
      unfold composeEnsure at hce
      rcases hap : audioPhase st env sc fs with eA | sA
      · rw [hap] at hce
        injection hce with h'
        simp only [audioPhase] at hap
        split_ifs at hap with hcond
        · rcases hstep : stepTTS st env sc false fs with ⟨fsA, evsA, resA⟩
          rw [hstep] at hap
          cases resA with
          | ok xA => exact Except.noConfusion hap
          | error eA' =>
            have hEA : eA = (fsA, evsA, eA') := by
              injection hap with h''
              exact h''.symm
            have hevs : evsE = evsA :=
              congrArg (fun z => z.2.1) (h'.symm.trans hEA)
            rw [hevs]
            intro hmem
            rcases stepTTS_events st env sc false fs _ (by
              rw [hstep]
              exact hmem) with hh | hh | hh | hh | hh <;> simp at hh
      · rw [hap] at hce
        simp only [videoPhase] at hce
        split_ifs at hce with hcond
        · rcases hstep : stepVideo st env sc false sA.1 with ⟨fsV, evsV, resV⟩
          rw [hstep] at hce
          cases resV with
          | ok xV => exact Except.noConfusion hce
          | error eV =>
            have heq : (fsE, evsE, msgE) = (fsV, sA.2 ++ evsV, eV) := by
              injection hce with h'
              exact h'.symm
            have hevs : evsE = sA.2 ++ evsV := by
              have := congrArg (fun z => z.2.1) heq
              simpa using this
            rw [hevs]
            intro hmem
            rcases List.mem_append.mp hmem with hmem | hmem
            · -- sA.2 comes from the audio phase
              simp only [audioPhase] at hap
              split_ifs at hap with hcond2
              · have : sA = (fs, []) := by
                  injection hap with h''
                  exact h''.symm
                rw [this] at hmem
                exact absurd hmem (List.not_mem_nil _)
              · rcases hstep2 : stepTTS st env sc false fs with ⟨fsA, evsA, resA⟩
                rw [hstep2] at hap
                cases resA with
                | error eA' => exact Except.noConfusion hap
                | ok xA =>
                  have : sA = (fsA, evsA) := by
                    injection hap with h''
                    exact h''.symm
                  rw [this] at hmem
                  rcases stepTTS_events st env sc false fs _ (by
                    rw [hstep2]
                    exact hmem) with hh | hh | hh | hh | hh <;> simp at hh
            · rcases stepVideo_events st env sc false sA.1 _ (by
                rw [hstep]
                exact hmem) with hh | hh | hh | hh | hh <;> simp at hh
    exact hno h
  · exact ⟨s1, rfl⟩

/-- The boundary file system for C6: content and audio artifacts in place,
and the video artifact at exactly 1024 bytes. -/
def boundaryFS : FS :=
  [(contentPath sampleSettings samplePid, serializeTeaser sampleTeaser),
   (audioPathOf sampleSettings samplePid, [1]),
   (videoPathOf sampleSettings samplePid, List.replicate 1024 2)]

/-- C6 (counterexample): with the predecessor video artifact at exactly
1024 bytes — present for the compose prerequisite (`st_size < 1024` does
not trigger regeneration) but NOT present per the claimed `size > 1024`
predicate — `step_compose` still invokes the compositor. -/
theorem compose_invoked_on_1024_byte_video :
    Ev.invoke Stage.compose ∈ (stepCompose sampleSettings sampleEnv sampleScript false
      boundaryFS).2.1 ∧
    ¬ (1024 < fileSize boundaryFS (videoPathOf sampleSettings samplePid)) := by
  constructor
  · decide
  · decide

/-- C6 (amended): `step_tts` and `step_video` run their stage only on the
ensured state in which the content JSON exists (regenerating it first via
`step_extract` when missing); `step_compose` invokes the compositor only
once its prerequisite phase has succeeded, and that phase guarantees —
when the providers return valid artifacts — an existing non-empty audio
artifact and an existing video artifact of AT LEAST 1024 bytes (not, as
claimed, above 1024: the compose prerequisite `st_size < 1024` accepts a
video of exactly 1024 bytes that the video stage's own `> 1024` cache
predicate rejects, which is the counterexample). -/
theorem stage_runs_after_predecessor_ensured (st : Settings) (env : RunEnv)
    (sc : PodcastScript) (force : Bool) (fs : FS)
    (hok : RunEnvOK st env (fingerprint sc.title sc.content)) :
    hasFile (ensureContent st env sc fs).1
      (contentPath st (fingerprint sc.title sc.content)) = true ∧
    (∀ s1, composeEnsure st env sc fs = .ok s1 →
      0 < fileSize s1.1 (audioPathOf st (fingerprint sc.title sc.content)) ∧
        1024 ≤ fileSize s1.1 (videoPathOf st (fingerprint sc.title sc.content))) ∧
    (Ev.invoke Stage.compose ∈ (stepCompose st env sc force fs).2.1 →
      ∃ s1, composeEnsure st env sc fs = .ok s1 ∧
        0 < fileSize s1.1 (audioPathOf st (fingerprint sc.title sc.content)) ∧
        1024 ≤ fileSize s1.1 (videoPathOf st (fingerprint sc.title sc.content))) := by
  refine ⟨ensureContent_has st env sc fs, ?_, ?_⟩
  · intro s1 h
    exact composeEnsure_sizes st env sc fs hok s1 h
  · intro hmem
    obtain ⟨s1, hs1⟩ := stepCompose_invoke_needs_ensure st env sc force fs hmem
    exact ⟨s1, hs1, composeEnsure_sizes st env sc fs hok s1 hs1⟩

/-- C6 (witness): `stage_runs_after_predecessor_ensured` on the concrete
boundary file system: the prerequisite phase succeeds without touching it,
and its state holds an ensured non-empty audio artifact and a video
artifact of at least 1024 bytes. -/
theorem stage_runs_after_predecessor_ensured_witness :
    composeEnsure sampleSettings sampleEnv sampleScript boundaryFS
        = .ok (boundaryFS, []) ∧
      0 < fileSize boundaryFS (audioPathOf sampleSettings
        (fingerprint sampleScript.title sampleScript.content)) ∧
      1024 ≤ fileSize boundaryFS (videoPathOf sampleSettings
        (fingerprint sampleScript.title sampleScript.content)) := by
  have heq : composeEnsure sampleSettings sampleEnv sampleScript boundaryFS
      = .ok (boundaryFS, []) := by rfl
  exact ⟨heq,
    (stage_runs_after_predecessor_ensured sampleSettings sampleEnv sampleScript false
      boundaryFS sampleEnvOK).2.1 (boundaryFS, []) heq⟩

end PTG
